import Mathlib

/-!
Shallow embedding of the monkey language toolchain (lexer, tree-walking
evaluator, bytecode compiler, stack VM) and proofs about the spec's claims.

Go machine integers (`int64`, `uint16`, bytes) are modelled as `Int`/`Nat`
with explicit wrapping where the Go code can overflow.  Go `nil` results of
the evaluator are modelled as `Option`; a Go runtime panic (failed type
assertion, slice index out of range, integer division by zero) is modelled
as `none` at the outermost `Option` layer of the function that panics.
Pointer identity of heap objects (the `TRUE`/`FALSE`/`NULL` singletons and
function values) is modelled by allocation ids carried on the constructors
that the evaluator compares by identity.
-/

namespace Monkey

/-- Two's-complement wrap-around of an `Int` to the `int64` range, modelling
Go's `int64` arithmetic. -/
def wrap64 (x : Int) : Int :=
  (x + 2 ^ 63) % 2 ^ 64 - 2 ^ 63

/-! ## AST (packages `monkey/interpreter/ast` and `monkey/ast`)

Statements and expressions as in `ast.go`.  A block statement is a list of
statements; `If.Consequence`/`If.Alternative` are block statements.  The
`HashLiteral` node of the compiler-side AST is not modelled (it is used by
no claim; its compilation sorts Go-map keys by their `String()` rendering).
-/

mutual

inductive Expr where
  | ident (value : String)
  | intLit (value : Int)
  | boolLit (value : Bool)
  | strLit (value : String)
  | prefixE (operator : String) (right : Expr)
  | infixE (operator : String) (left : Expr) (right : Expr)
  | ifE (condition : Expr) (consequence : List Stmt)
        (alternative : Option (List Stmt))
  | funcLit (params : List String) (body : List Stmt)
  | callE (function : Expr) (args : List Expr)
  | arrayLit (elements : List Expr)
  | indexE (left : Expr) (index : Expr)

inductive Stmt where
  | letS (name : String) (value : Expr)
  | returnS (value : Expr)
  | exprS (expr : Expr)
  | blockS (stmts : List Stmt)

end

/-- `Eval`'s argument is an `ast.Node`: a program, a statement or an
expression. -/
inductive Node where
  | prog (statements : List Stmt)
  | stmt (s : Stmt)
  | expr (e : Expr)

/-! ## Runtime objects (package `monkey/interpreter/object`) -/

/-- Runtime values of the tree-walking evaluator (`object.go`).
`boolean` carries an allocation id modelling Go pointer identity: the two
singletons `TRUE`/`FALSE` are the only boolean allocations the evaluator
ever makes and get ids 0 and 1.  `func` likewise carries an allocation id
(each evaluation of a function literal is a fresh Go allocation) and the id
of its captured environment.  `returnValue` wraps the evaluator result it
was built from, which Go allows to be `nil` (hence `Option`). -/
inductive Obj where
  | integer (value : Int)
  | boolean (value : Bool) (allocId : Nat)
  | str (value : String)
  | null
  | returnValue (value : Option Obj)
  | error (message : String)
  | func (params : List String) (body : List Stmt) (envId : Nat) (allocId : Nat)
  | builtin (name : String)
  | array (elements : List Obj)

/-- `Object.Type()`: the `ObjectType` tag of a value. -/
def Obj.typeTag : Obj → String
  | .integer _ => "INTEGER"
  | .boolean _ _ => "BOOLEAN"
  | .str _ => "STRING"
  | .null => "NULL"
  | .returnValue _ => "RETURN_VALUE"
  | .error _ => "ERROR"
  | .func _ _ _ _ => "FUNCTION"
  | .builtin _ => "BUILTIN"
  | .array _ => "ARRAY"

/-- The singleton `TRUE` of the evaluator (allocation id 0). -/
def TRUE : Obj := .boolean true 0

/-- The singleton `FALSE` of the evaluator (allocation id 1). -/
def FALSE : Obj := .boolean false 1

/-- The singleton `NULL` of the evaluator. -/
def NULL : Obj := .null

/-- A Go evaluator result: `Eval` may return `nil` (`none`). -/
abbrev Res := Option Obj

/-- Go interface equality `left == right` between evaluator objects:
pointers of different dynamic types are never equal; booleans and functions
compare by allocation id; the single `NULL` allocation compares equal to
itself; one `Builtin` is allocated per registry name.  The remaining
same-constructor cases (two integers, strings, errors, return values or
arrays) compare Go pointers of distinct allocations and are unreachable at
the one call site (`evalInfixExpression` handles integer and string pairs
before comparing identity, and errors/return values are short-circuited
earlier); they are modelled as `false`. -/
def objIdentityEq : Obj → Obj → Bool
  | .boolean _ i, .boolean _ j => i == j
  | .null, .null => true
  | .builtin n, .builtin m => n == m
  | .func _ _ _ i, .func _ _ _ j => i == j
  | _, _ => false

/-- `newError`: build an `object.Error` with the given message. -/
def newError (msg : String) : Obj := .error msg

/-- `isError`: a (possibly nil) object is an error iff it is non-nil and its
type tag is `ERROR`. -/
def isError : Res → Bool
  | some o => o.typeTag == "ERROR"
  | none => false

/-- `nativeBoolToBooleanObject`: convert a Go bool to one of the two shared
singletons. -/
def nativeBoolToBooleanObject (input : Bool) : Obj :=
  if input then TRUE else FALSE

/-- `isTruthy`: Go switches on object identity (`case NULL / TRUE / FALSE`);
every other value, including a nil object, hits the default and is truthy. -/
def isTruthy : Res → Bool
  | some (.boolean true 0) => true    -- case TRUE
  | some (.boolean false 1) => false  -- case FALSE
  | some .null => false               -- case NULL
  | _ => true                         -- default (also Go nil)

/-- `evalBangOperatorExpression`: Go switches on identity against the
singletons; any other object (including a non-singleton boolean or a nil
object) hits the default and yields `FALSE`. -/
def evalBangOperatorExpression : Res → Obj
  | some (.boolean true 0) => FALSE   -- case TRUE
  | some (.boolean false 1) => TRUE   -- case FALSE
  | some .null => TRUE                -- case NULL
  | _ => FALSE                        -- default

/-- `evalMinusPrefixOperatorExpression`: integers negate (Go `int64`
negation wraps); other values give `unknown operator: -<TYPE>`; a nil
operand panics at `right.Type()` (`none`). -/
def evalMinusPrefixOperatorExpression : Res → Option Obj
  | some (.integer value) => some (.integer (wrap64 (-value)))
  | some right =>
    some (newError ("unknown operator: -" ++ right.typeTag))
  | none => none

/-- `evalPrefixExpression`: dispatch on the prefix operator. -/
def evalPrefixExpression (operator : String) (right : Res) : Option Obj :=
  if operator == "!" then some (evalBangOperatorExpression right)
  else if operator == "-" then evalMinusPrefixOperatorExpression right
  else
    match right with
    | some r => some (newError ("unknown operator: " ++ operator ++ r.typeTag))
    | none => none

/-- `evalIntegerInfixExpression`: both operands are asserted to be
`*object.Integer` (a non-integer operand would panic, `none`); `/` panics
on a zero divisor.  Go `int64` arithmetic wraps; Go integer division
truncates toward zero and `math.MinInt64 / -1` wraps. -/
def evalIntegerInfixExpression (operator : String) (left right : Obj) :
    Option Obj :=
  match left, right with
  | .integer leftVal, .integer rightVal =>
    if operator == "+" then some (.integer (wrap64 (leftVal + rightVal)))
    else if operator == "-" then some (.integer (wrap64 (leftVal - rightVal)))
    else if operator == "*" then some (.integer (wrap64 (leftVal * rightVal)))
    else if operator == "/" then
      if rightVal = 0 then none
      else some (.integer (wrap64 (leftVal.tdiv rightVal)))
    else if operator == "<" then
      some (nativeBoolToBooleanObject (leftVal < rightVal))
    else if operator == ">" then
      some (nativeBoolToBooleanObject (leftVal > rightVal))
    else if operator == "==" then
      some (nativeBoolToBooleanObject (leftVal == rightVal))
    else if operator == "!=" then
      some (nativeBoolToBooleanObject (leftVal != rightVal))
    else
      some (newError ("unknown operator: " ++ left.typeTag ++ " " ++ operator
        ++ " " ++ right.typeTag))
  | _, _ => none

/-- `evalStringInfixExpression`: only `+` (concatenation) is defined; both
operands are asserted to be `*object.String` (else panic, `none`). -/
def evalStringInfixExpression (operator : String) (left right : Obj) :
    Option Obj :=
  match left, right with
  | .str leftVal, .str rightVal =>
    if operator == "+" then some (.str (leftVal ++ rightVal))
    else
      some (newError ("unknown operator: " ++ Obj.typeTag (.str leftVal) ++ " "
        ++ operator ++ " " ++ Obj.typeTag (.str rightVal)))
  | _, _ => none

/-- `evalInfixExpression`: the Go switch, in source order — both integers;
both strings; `==` by identity; `!=` by identity; differing type tags give
`type mismatch`; otherwise `unknown operator`.  A nil operand panics at
`left.Type()`/`right.Type()` (`none`). -/
def evalInfixExpression (operator : String) (left right : Res) : Option Obj :=
  match left, right with
  | some l, some r =>
    if l.typeTag == "INTEGER" && r.typeTag == "INTEGER" then
      evalIntegerInfixExpression operator l r
    else if l.typeTag == "STRING" && r.typeTag == "STRING" then
      evalStringInfixExpression operator l r
    else if operator == "==" then
      some (nativeBoolToBooleanObject (objIdentityEq l r))
    else if operator == "!=" then
      some (nativeBoolToBooleanObject (!objIdentityEq l r))
    else if l.typeTag != r.typeTag then
      some (newError ("type mismatch: " ++ l.typeTag ++ " " ++ operator ++ " "
        ++ r.typeTag))
    else
      some (newError ("unknown operator: " ++ l.typeTag ++ " " ++ operator
        ++ " " ++ r.typeTag))
  | _, _ => none

/-- `unwrapReturnValue`: unwrap a `ReturnValue`, pass anything else (also a
nil object) through. -/
def unwrapReturnValue : Res → Res
  | some (.returnValue v) => v
  | obj => obj

/-! ## Environments (`object.Environment`)

Go environments are mutable maps chained by an `outer` pointer and shared
by reference between closures.  They are modelled as a heap: `EvalState`
holds all allocated environments, and an environment reference is its index
into that list.  A map value may be a Go nil object (`none` : `Res`), which
`Let` can store when its value expression evaluates to nil. -/

structure EnvData where
  table : List (String × Res)
  outer : Option Nat

structure EvalState where
  envs : List EnvData
  nextFnAlloc : Nat

/-- Go map lookup on the modelled store (one entry per key). -/
def lookupTable : List (String × Res) → String → Option Res
  | [], _ => none
  | (k, v) :: rest, name => if k == name then some v else lookupTable rest name

/-- Go map insert: replace the binding for the key or add one. -/
def setTable : List (String × Res) → String → Res → List (String × Res)
  | [], name, v => [(name, v)]
  | (k, w) :: rest, name, v =>
    if k == name then (name, v) :: rest else (k, w) :: setTable rest name v

/-- `Environment.Get`: look in the local store, then recurse on `outer`.
Outer pointers always reference previously allocated environments, so a
chain visits each environment at most once; the explicit bound
`envs.length` in `envGet` therefore never cuts a real lookup short. -/
def envGetAux (envs : List EnvData) : Nat → Nat → String → Option Res
  | 0, _, _ => none
  | gas + 1, envId, name =>
    match envs.get? envId with
    | none => none
    | some e =>
      match lookupTable e.table name with
      | some v => some v
      | none =>
        match e.outer with
        | some o => envGetAux envs gas o name
        | none => none

def envGet (st : EvalState) (envId : Nat) (name : String) : Option Res :=
  envGetAux st.envs st.envs.length envId name

/-- `Environment.Set`: store into the referenced environment's own map. -/
def envSet (st : EvalState) (envId : Nat) (name : String) (v : Res) :
    EvalState :=
  match st.envs.get? envId with
  | some e =>
    { st with envs := st.envs.set envId { e with table := setTable e.table name v } }
  | none => st

/-- `NewEnclosedEnvironment`: allocate a fresh empty environment whose outer
pointer is the given environment; returns its reference. -/
def newEnclosedEnvironment (st : EvalState) (outer : Nat) : Nat × EvalState :=
  (st.envs.length, { st with envs := st.envs ++ [⟨[], some outer⟩] })

/-- `NewEnvironment` plus a fresh state: one outermost environment. -/
def initialState : EvalState := ⟨[⟨[], none⟩], 0⟩

/-! ## Builtins -/

/-- Modelled from the spec: the `builtins` map consulted by
`evalIdentifier` is not present under `src/` (only its use site is).  §9
specifies the registry `len`, `first`, `rest`, `last`, `push`, `puts`; one
`Builtin` value is allocated per name. -/
def builtinsLookup (name : String) : Option Obj :=
  if name == "len" || name == "first" || name == "rest" || name == "last"
      || name == "push" || name == "puts" then
    some (.builtin name)
  else none

/-- Modelled from the spec: behaviour of the builtin registry (§9: each
builtin "enforces its argument arity and types and returns an `Error` value
on violation"; §6 fixes the arity and `len` error messages; `len` covers
strings and arrays, `first`/`rest`/`last`/`push` cover arrays, `puts`
prints and yields `NULL`).  Inspecting a Go nil argument would panic
(`none`). -/
def applyBuiltin (name : String) (args : List Res) : Option Obj :=
  if name == "len" then
    match args with
    | [some (.str s)] => some (.integer (s.utf8ByteSize : Int))
    | [some (.array elems)] => some (.integer (elems.length : Int))
    | [some a] =>
      some (newError ("argument to \x60len\x60 not supported, got " ++ a.typeTag))
    | [none] => none
    | _ =>
      some (newError ("wrong number of arguments. got=" ++ toString args.length
        ++ ", want=1"))
  else if name == "first" then
    match args with
    | [some (.array elems)] =>
      match elems.head? with
      | some e => some e
      | none => some NULL
    | [some a] =>
      some (newError ("argument to \x60first\x60 must be ARRAY, got " ++ a.typeTag))
    | [none] => none
    | _ =>
      some (newError ("wrong number of arguments. got=" ++ toString args.length
        ++ ", want=1"))
  else if name == "last" then
    match args with
    | [some (.array elems)] =>
      match elems.getLast? with
      | some e => some e
      | none => some NULL
    | [some a] =>
      some (newError ("argument to \x60last\x60 must be ARRAY, got " ++ a.typeTag))
    | [none] => none
    | _ =>
      some (newError ("wrong number of arguments. got=" ++ toString args.length
        ++ ", want=1"))
  else if name == "rest" then
    match args with
    | [some (.array elems)] =>
      if elems.length > 0 then some (.array elems.tail) else some NULL
    | [some a] =>
      some (newError ("argument to \x60rest\x60 must be ARRAY, got " ++ a.typeTag))
    | [none] => none
    | _ =>
      some (newError ("wrong number of arguments. got=" ++ toString args.length
        ++ ", want=1"))
  else if name == "push" then
    match args with
    | [some (.array elems), some x] => some (.array (elems ++ [x]))
    | [some (.array _), none] => none
    | [some a, _] =>
      some (newError ("argument to \x60push\x60 must be ARRAY, got " ++ a.typeTag))
    | [none, _] => none
    | _ =>
      some (newError ("wrong number of arguments. got=" ++ toString args.length
        ++ ", want=2"))
  else if name == "puts" then
    some NULL
  else none

/-- `evalIdentifier`: environment chain first, then the builtin registry,
else `identifier not found`.  A found binding may be a stored nil. -/
def evalIdentifier (st : EvalState) (envId : Nat) (name : String) : Res :=
  match envGet st envId name with
  | some val => val
  | none =>
    match builtinsLookup name with
    | some b => some b
    | none => some (newError ("identifier not found: " ++ name))

/-- `extendFunctionEnv`'s parameter binding: `env.Set(param, args[idx])`
positionally; the caller has checked `params.length ≤ args.length` (Go
panics otherwise). -/
def bindParams : EvalState → Nat → List String → List Res → EvalState
  | st, _, [], _ => st
  | st, envId, p :: ps, a :: rest => bindParams (envSet st envId p a) envId ps rest
  | st, _, _ :: _, [] => st

/-! ## The evaluator (`Eval` and its mutually recursive helpers)

Go's `Eval` recursion is not structurally bounded (function application
evaluates a function body under a fresh environment), so the mutual block
is indexed by fuel; `none` at the outer layer means the fuel ran out or the
Go code panicked.  Every recursive call decrements the fuel. -/

mutual

/-- `Eval(node, env)`: dispatch on the node variant.  `ArrayLiteral` and
`IndexExpression` have no case in the Go switch, so `Eval` returns nil for
them. -/
def evalFuel : Nat → Node → Nat → EvalState → Option (Res × EvalState)
  | 0, _, _, _ => none
  | fuel + 1, node, envId, st =>
    match node with
    | .prog stmts => evalProgramFuel fuel stmts envId st
    | .stmt (.exprS e) => evalFuel fuel (.expr e) envId st
    | .stmt (.blockS stmts) => evalBlockFuel fuel stmts envId st
    | .stmt (.letS name value) =>
      match evalFuel fuel (.expr value) envId st with
      | none => none
      | some (val, st1) =>
        if isError val then some (val, st1)
        else some (none, envSet st1 envId name val)
    | .stmt (.returnS e) =>
      match evalFuel fuel (.expr e) envId st with
      | none => none
      | some (val, st1) =>
        if isError val then some (val, st1)
        else some (some (.returnValue val), st1)
    | .expr (.intLit v) => some (some (.integer v), st)
    | .expr (.boolLit b) => some (some (nativeBoolToBooleanObject b), st)
    | .expr (.strLit s) => some (some (.str s), st)
    | .expr (.prefixE op r) =>
      match evalFuel fuel (.expr r) envId st with
      | none => none
      | some (right, st1) =>
        if isError right then some (right, st1)
        else
          match evalPrefixExpression op right with
          | some o => some (some o, st1)
          | none => none
    | .expr (.infixE op l r) =>
      match evalFuel fuel (.expr l) envId st with
      | none => none
      | some (left, st1) =>
        if isError left then some (left, st1)
        else
          match evalFuel fuel (.expr r) envId st1 with
          | none => none
          | some (right, st2) =>
            if isError right then some (right, st2)
            else
              match evalInfixExpression op left right with
              | some o => some (some o, st2)
              | none => none
    | .expr (.ifE cond cons alt) => evalIfFuel fuel cond cons alt envId st
    | .expr (.ident name) => some (evalIdentifier st envId name, st)
    | .expr (.funcLit params body) =>
      some (some (.func params body envId st.nextFnAlloc),
            { st with nextFnAlloc := st.nextFnAlloc + 1 })
    | .expr (.callE fnE argsE) =>
      match evalFuel fuel (.expr fnE) envId st with
      | none => none
      | some (function, st1) =>
        if isError function then some (function, st1)
        else
          match evalExpressionsFuel fuel argsE envId st1 with
          | none => none
          | some (args, st2) =>
            if args.length == 1 && isError (args.headD none) then
              some (args.headD none, st2)
            else applyFunctionFuel fuel function args st2
    | .expr (.arrayLit _) => some (none, st)
    | .expr (.indexE _ _) => some (none, st)
  termination_by structural fuel _ _ _ => fuel

/-- `evalProgram`: statements in order; a `ReturnValue` result is unwrapped
and returned, an `Error` is returned; otherwise the last result. -/
def evalProgramFuel : Nat → List Stmt → Nat → EvalState →
    Option (Res × EvalState)
  | 0, _, _, _ => none
  | fuel + 1, stmts, envId, st =>
    match stmts with
    | [] => some (none, st)
    | s :: rest =>
      match evalFuel fuel (.stmt s) envId st with
      | none => none
      | some (result, st1) =>
        match result with
        | some (.returnValue v) => some (v, st1)
        | some (.error m) => some (some (.error m), st1)
        | _ =>
          match rest with
          | [] => some (result, st1)
          | _ => evalProgramFuel fuel rest envId st1
  termination_by structural fuel => fuel

/-- `evalBlockStatement`, exactly as written in the source: after a
statement with a non-nil result, the `RETURN_VALUE`/`ERROR` check is
followed by an unconditional `return result`, so the loop only continues
past statements whose result is nil. -/
def evalBlockFuel : Nat → List Stmt → Nat → EvalState →
    Option (Res × EvalState)
  | 0, _, _, _ => none
  | fuel + 1, stmts, envId, st =>
    match stmts with
    | [] => some (none, st)
    | s :: rest =>
      match evalFuel fuel (.stmt s) envId st with
      | none => none
      | some (result, st1) =>
        match result with
        | some r =>
          if r.typeTag == "RETURN_VALUE" || r.typeTag == "ERROR" then
            some (some r, st1)
          else some (some r, st1)  -- unconditional `return result` in the Go loop
        | none => evalBlockFuel fuel rest envId st1
  termination_by structural fuel => fuel

/-- `evalIfExpression`: condition, then consequence when truthy, else the
alternative when present, else `NULL`. -/
def evalIfFuel : Nat → Expr → List Stmt → Option (List Stmt) → Nat →
    EvalState → Option (Res × EvalState)
  | 0, _, _, _, _, _ => none
  | fuel + 1, cond, cons, alt, envId, st =>
    match evalFuel fuel (.expr cond) envId st with
    | none => none
    | some (condition, st1) =>
      if isError condition then some (condition, st1)
      else if isTruthy condition then
        evalFuel fuel (.stmt (.blockS cons)) envId st1
      else
        match alt with
        | some altStmts => evalFuel fuel (.stmt (.blockS altStmts)) envId st1
        | none => some (some NULL, st1)
  termination_by structural fuel => fuel

/-- `evalExpressions`: left to right; the first error is returned as a
singleton list. -/
def evalExpressionsFuel : Nat → List Expr → Nat → EvalState →
    Option (List Res × EvalState)
  | 0, _, _, _ => none
  | fuel + 1, exps, envId, st =>
    match exps with
    | [] => some ([], st)
    | e :: rest =>
      match evalFuel fuel (.expr e) envId st with
      | none => none
      | some (evaluated, st1) =>
        if isError evaluated then some ([evaluated], st1)
        else
          match evalExpressionsFuel fuel rest envId st1 with
          | none => none
          | some (results, st2) => some (evaluated :: results, st2)
  termination_by structural fuel => fuel

/-- `applyFunction`: a user function gets a fresh enclosed environment with
parameters bound positionally (Go panics when arguments are missing), its
body is evaluated, and a `ReturnValue` is unwrapped; a builtin is invoked
on the arguments; anything else is `not a function` (a nil callee panics at
`fn.Type()`). -/
def applyFunctionFuel : Nat → Res → List Res → EvalState →
    Option (Res × EvalState)
  | 0, _, _, _ => none
  | fuel + 1, fn, args, st =>
    match fn with
    | some (.func params body fnEnv _) =>
      if args.length < params.length then none
      else
        let alloc := newEnclosedEnvironment st fnEnv
        let st2 := bindParams alloc.2 alloc.1 params args
        match evalFuel fuel (.stmt (.blockS body)) alloc.1 st2 with
        | none => none
        | some (evaluated, st3) => some (unwrapReturnValue evaluated, st3)
    | some (.builtin name) =>
      match applyBuiltin name args with
      | some o => some (some o, st)
      | none => none
    | some other =>
      some (some (newError ("not a function: " ++ other.typeTag)), st)
    | none => none
  termination_by structural fuel => fuel

end

/-! ## Tokens and the lexer (packages `monkey/interpreter/token` and
`monkey/interpreter/lexer`, the full revision of `lexer.go`)

A Go string is a byte slice; the lexer input is modelled as a list of byte
values.  `Token.Literal` is rebuilt from the bytes it slices out. -/

structure Token where
  typ : String      -- token.Type (a TokenType string constant)
  literal : String  -- token.Literal
  deriving DecidableEq

/-- Decode an ASCII byte slice back to a Lean string (`string(ch)` and Go
string slicing on the lexer's input). -/
def bytesToString (bs : List Nat) : String :=
  String.mk (bs.map Char.ofNat)

/-- `token.LookupIdent`: the keyword table, else `IDENT`. -/
def lookupIdent (ident : String) : String :=
  if ident == "fn" then "FUNCTION"
  else if ident == "let" then "LET"
  else if ident == "true" then "TRUE"
  else if ident == "false" then "FALSE"
  else if ident == "if" then "IF"
  else if ident == "else" then "ELSE"
  else if ident == "return" then "RETURN"
  else "IDENT"

structure Lexer where
  input : List Nat       -- the source bytes
  position : Nat         -- current position (points at ch)
  readPosition : Nat     -- next position to read
  ch : Nat               -- current byte under examination
  deriving DecidableEq

/-- `readChar`: load the next byte, or 0 past the end of input. -/
def readChar (l : Lexer) : Lexer :=
  { l with
    ch := if l.input.length ≤ l.readPosition then 0
          else l.input.getD l.readPosition 0
    position := l.readPosition
    readPosition := l.readPosition + 1 }

/-- `peekChar`: the byte after the current one, or 0 past the end. -/
def peekChar (l : Lexer) : Nat :=
  if l.input.length ≤ l.readPosition then 0 else l.input.getD l.readPosition 0

/-- `isLetter`: ASCII letters and underscore. -/
def isLetter (ch : Nat) : Bool :=
  (97 ≤ ch && ch ≤ 122) || (65 ≤ ch && ch ≤ 90) || ch == 95

/-- `isDigit`: ASCII digits. -/
def isDigit (ch : Nat) : Bool :=
  48 ≤ ch && ch ≤ 57

/-- The whitespace bytes skipped between tokens: space, CR, tab, LF. -/
def isWhitespace (ch : Nat) : Bool :=
  ch == 32 || ch == 13 || ch == 9 || ch == 10

/-- `skipWhitespace`'s loop, with fuel.  Each `readChar` advances
`readPosition`, and once it passes the end `ch` becomes 0, which is not
whitespace, so `input.length + 2` steps always reach the loop's exit. -/
def skipWhitespaceFuel : Nat → Lexer → Lexer
  | 0, l => l
  | fuel + 1, l =>
    if isWhitespace l.ch then skipWhitespaceFuel fuel (readChar l) else l

def skipWhitespace (l : Lexer) : Lexer :=
  skipWhitespaceFuel (l.input.length + 2) l

/-- `readIdentifier`'s scanning loop (same termination argument as
`skipWhitespace`). -/
def readLettersFuel : Nat → Lexer → Lexer
  | 0, l => l
  | fuel + 1, l =>
    if isLetter l.ch then readLettersFuel fuel (readChar l) else l

/-- `readIdentifier`: scan letters, slice `input[position:l.position]`. -/
def readIdentifier (l : Lexer) : String × Lexer :=
  let l2 := readLettersFuel (l.input.length + 2) l
  (bytesToString ((l2.input.take l2.position).drop l.position), l2)

def readDigitsFuel : Nat → Lexer → Lexer
  | 0, l => l
  | fuel + 1, l =>
    if isDigit l.ch then readDigitsFuel fuel (readChar l) else l

/-- `readNumber`: scan digits, slice `input[position:l.position]`. -/
def readNumber (l : Lexer) : String × Lexer :=
  let l2 := readDigitsFuel (l.input.length + 2) l
  (bytesToString ((l2.input.take l2.position).drop l.position), l2)

/-- `newToken`: a single-character token. -/
def newTokenByte (typ : String) (ch : Nat) : Token :=
  ⟨typ, bytesToString [ch]⟩

/-- `lexer.New`: zero-valued lexer on the input, then one `readChar`. -/
def lexNew (input : List Nat) : Lexer :=
  readChar ⟨input, 0, 0, 0⟩

/-- `NextToken`: skip whitespace, then the big switch on the current byte.
The identifier/number branches return early without the trailing
`readChar`; every other branch ends with it. -/
def nextToken (l0 : Lexer) : Token × Lexer :=
  let l := skipWhitespace l0
  if l.ch == 61 then        -- '='
    if peekChar l == 61 then
      let ch := l.ch
      let l2 := readChar l
      (⟨"==", bytesToString [ch, l2.ch]⟩, readChar l2)
    else (newTokenByte "=" l.ch, readChar l)
  else if l.ch == 43 then   -- '+'
    (newTokenByte "+" l.ch, readChar l)
  else if l.ch == 45 then   -- '-'
    (newTokenByte "-" l.ch, readChar l)
  else if l.ch == 33 then   -- '!'
    if peekChar l == 61 then
      let ch := l.ch
      let l2 := readChar l
      (⟨"!=", bytesToString [ch, l2.ch]⟩, readChar l2)
    else (newTokenByte "!" l.ch, readChar l)
  else if l.ch == 47 then   -- '/'
    (newTokenByte "/" l.ch, readChar l)
  else if l.ch == 42 then   -- '*'
    (newTokenByte "*" l.ch, readChar l)
  else if l.ch == 60 then   -- '<'
    (newTokenByte "<" l.ch, readChar l)
  else if l.ch == 62 then   -- '>'
    (newTokenByte ">" l.ch, readChar l)
  else if l.ch == 59 then   -- ';'
    (newTokenByte ";" l.ch, readChar l)
  else if l.ch == 44 then   -- ','
    (newTokenByte "," l.ch, readChar l)
  else if l.ch == 40 then   -- '('
    (newTokenByte "(" l.ch, readChar l)
  else if l.ch == 41 then   -- ')'
    (newTokenByte ")" l.ch, readChar l)
  else if l.ch == 123 then  -- left brace
    (newTokenByte "\x7b" l.ch, readChar l)
  else if l.ch == 125 then  -- right brace
    (newTokenByte "\x7d" l.ch, readChar l)
  else if l.ch == 0 then
    (⟨"EOF", ""⟩, readChar l)
  else if isLetter l.ch then
    let (lit, l2) := readIdentifier l
    (⟨lookupIdent lit, lit⟩, l2)
  else if isDigit l.ch then
    let (lit, l2) := readNumber l
    (⟨"INT", lit⟩, l2)
  else
    (newTokenByte "ILLEGAL" l.ch, readChar l)

/-- Run the lexer state forward `n` calls of `NextToken`, discarding the
tokens. -/
def nextTokenState : Nat → Lexer → Lexer
  | 0, l => l
  | n + 1, l => nextTokenState n (nextToken l).2

/-! ## Bytecode (package `monkey/code`, the full revision of `code.go`)

Opcodes are bytes (`iota` constants 0..26); instructions are byte lists
modelled as lists of naturals below 256. -/

def opConstant : Nat := 0
def opPop : Nat := 1
def opAdd : Nat := 2
def opSub : Nat := 3
def opMul : Nat := 4
def opDiv : Nat := 5
def opTrue : Nat := 6
def opFalse : Nat := 7
def opEqual : Nat := 8
def opNotEqual : Nat := 9
def opGreaterThan : Nat := 10
def opMinus : Nat := 11
def opBang : Nat := 12
def opJump : Nat := 13
def opJumpNotTruthy : Nat := 14
def opNull : Nat := 15
def opGetGlobal : Nat := 16
def opSetGlobal : Nat := 17
def opArray : Nat := 18
def opHash : Nat := 19
def opIndex : Nat := 20
def opCall : Nat := 21
def opReturnValue : Nat := 22
def opReturn : Nat := 23
def opGetLocal : Nat := 24
def opSetLocal : Nat := 25
def opGetBuiltin : Nat := 26

structure OpDefinition where
  name : String
  operandWidths : List Nat
  deriving DecidableEq

/-- The `definitions` map of `code.go` as an association list (one entry
per opcode; Go map lookup is modelled by `find?` on the key). -/
def definitionsList : List (Nat × OpDefinition) :=
  [ (opConstant, ⟨"OpConstant", [2]⟩),
    (opPop, ⟨"OpPop", []⟩),
    (opAdd, ⟨"OpAdd", []⟩),
    (opSub, ⟨"OpSub", []⟩),
    (opMul, ⟨"OpMul", []⟩),
    (opDiv, ⟨"OpDiv", []⟩),
    (opTrue, ⟨"OpTrue", []⟩),
    (opFalse, ⟨"OpFalse", []⟩),
    (opEqual, ⟨"OpEqual", []⟩),
    (opNotEqual, ⟨"OpNotEqual", []⟩),
    (opGreaterThan, ⟨"OpGreaterThan", []⟩),
    (opMinus, ⟨"OpMinus", []⟩),
    (opBang, ⟨"OpBang", []⟩),
    (opJump, ⟨"OpJump", [2]⟩),
    (opJumpNotTruthy, ⟨"OpJumpNotTruthy", [2]⟩),
    (opNull, ⟨"OpNull", []⟩),
    (opGetGlobal, ⟨"OpGetGlobal", [2]⟩),
    (opSetGlobal, ⟨"OpSetGlobal", [2]⟩),
    (opArray, ⟨"OpArray", [2]⟩),
    (opHash, ⟨"OpHash", [2]⟩),
    (opIndex, ⟨"OpIndex", []⟩),
    (opCall, ⟨"OpCall", [1]⟩),
    (opReturnValue, ⟨"OpReturnValue", []⟩),
    (opReturn, ⟨"OpReturn", []⟩),
    (opGetLocal, ⟨"OpGetLocal", [1]⟩),
    (opSetLocal, ⟨"OpSetLocal", [1]⟩),
    (opGetBuiltin, ⟨"OpGetBuiltin", [1]⟩) ]

/-- `Lookup`/the `definitions[op]` map access. -/
def lookupDef (op : Nat) : Option OpDefinition :=
  (definitionsList.find? (fun p => p.1 == op)).map (·.2)

/-- The operand bytes written by `Make`'s loop: the buffer is allocated
zeroed, a 2-byte operand is written big-endian after the Go `uint16`
truncation, a 1-byte operand after the `byte` truncation, and a width the
switch does not mention leaves its buffer bytes zero.  (Go panics when more
operands than widths are passed; no call site does.) -/
def putOperands : List Nat → List Nat → List Nat
  | [], _ => []
  | w :: ws, [] => List.replicate w 0 ++ putOperands ws []
  | w :: ws, o :: os =>
    (if w == 2 then [o / 256 % 256, o % 256]
     else if w == 1 then [o % 256]
     else List.replicate w 0) ++ putOperands ws os

/-- `Make`: unknown opcodes give an empty instruction; otherwise the opcode
byte followed by the encoded operands. -/
def make (op : Nat) (operands : List Nat) : List Nat :=
  match lookupDef op with
  | none => []
  | some d => op % 256 :: putOperands d.operandWidths operands

/-- `ReadUint16`: two big-endian bytes; fewer than two bytes panic
(`none`). -/
def readUint16 : List Nat → Option Nat
  | a :: b :: _ => some (a * 256 + b)
  | _ => none

/-- `ReadUint8`: one byte; an empty slice panics (`none`). -/
def readUint8 : List Nat → Option Nat
  | a :: _ => some a
  | [] => none

/-- `ReadOperands`: decode one operand per width, returning the operands
and the total offset read.  An unknown width leaves the preallocated 0 in
the operand slot and advances the offset. -/
def readOperands (widths : List Nat) (ins : List Nat) :
    Option (List Nat × Nat) :=
  match widths with
  | [] => some ([], 0)
  | w :: ws =>
    if w == 2 then
      match readUint16 ins with
      | none => none
      | some v =>
        match readOperands ws (ins.drop 2) with
        | none => none
        | some (os, off) => some (v :: os, off + 2)
    else if w == 1 then
      match readUint8 ins with
      | none => none
      | some v =>
        match readOperands ws (ins.drop 1) with
        | none => none
        | some (os, off) => some (v :: os, off + 1)
    else
      match readOperands ws (ins.drop w) with
      | none => none
      | some (os, off) => some (0 :: os, off + w)

/-! ## Symbol table (package `monkey/compiler`, `symbol_table.go`) -/

structure Symbol where
  name : String
  scope : String
  index : Nat
  deriving DecidableEq

structure SymbolTable where
  store : List (String × Symbol)
  numDefinitions : Nat
  deriving DecidableEq

/-- `SymbolTable.Define`: a fresh global symbol with the next dense index. -/
def SymbolTable.define (st : SymbolTable) (name : String) :
    Symbol × SymbolTable :=
  let symbol : Symbol := ⟨name, "GLOBAL", st.numDefinitions⟩
  (symbol, ⟨setAssoc st.store name symbol, st.numDefinitions + 1⟩)
where
  /-- Go map insert on the store. -/
  setAssoc : List (String × Symbol) → String → Symbol → List (String × Symbol)
    | [], n, s => [(n, s)]
    | (k, v) :: rest, n, s =>
      if k == n then (n, s) :: rest else (k, v) :: setAssoc rest n s

/-- `SymbolTable.Resolve`: map lookup. -/
def SymbolTable.resolve (st : SymbolTable) (name : String) : Option Symbol :=
  (st.store.find? (fun p => p.1 == name)).map (·.2)

/-! ## Compiler (package `monkey/compiler`, `compiler.go`) -/

structure EmittedInstruction where
  opcode : Nat
  position : Nat
  deriving DecidableEq

structure CState where
  instructions : List Nat
  constants : List Obj
  lastInstruction : EmittedInstruction
  previousInstruction : EmittedInstruction
  symbolTable : SymbolTable

/-- `compiler.New`: empty instruction stream and constant pool; the
zero-valued `EmittedInstruction{}` records. -/
def compilerNew : CState :=
  ⟨[], [], ⟨0, 0⟩, ⟨0, 0⟩, ⟨[], 0⟩⟩

/-- `addConstant`: append, return the new constant's index. -/
def addConstant (st : CState) (obj : Obj) : Nat × CState :=
  (st.constants.length, { st with constants := st.constants ++ [obj] })

/-- `emit` (with `addInstruction` and `setLastInstruction` inlined): append
the made instruction, record the previous/last emitted opcodes, return the
new instruction's start position. -/
def emitC (st : CState) (op : Nat) (operands : List Nat) : Nat × CState :=
  let pos := st.instructions.length
  (pos,
   { st with
     instructions := st.instructions ++ make op operands
     previousInstruction := st.lastInstruction
     lastInstruction := ⟨op, pos⟩ })

/-- `lastInstructionIsPop`. -/
def lastInstructionIsPop (st : CState) : Bool :=
  st.lastInstruction.opcode == opPop

/-- `removeLastPop`: truncate the stream at the last instruction's position
and restore the previously recorded instruction. -/
def removeLastPop (st : CState) : CState :=
  { st with
    instructions := st.instructions.take st.lastInstruction.position
    lastInstruction := st.previousInstruction }

/-- `replaceInstruction`: overwrite `newIns.length` bytes at `pos`.  All
call sites stay in bounds (Go would panic otherwise). -/
def replaceInstruction (ins : List Nat) (pos : Nat) (newIns : List Nat) :
    List Nat :=
  ins.take pos ++ newIns ++ ins.drop (pos + newIns.length)

/-- `changeOperand`: re-`Make` the instruction at `opPos` with the new
operand and splice it in place. -/
def changeOperand (st : CState) (opPos : Nat) (operand : Nat) : CState :=
  let op := st.instructions.getD opPos 0
  { st with
    instructions := replaceInstruction st.instructions opPos (make op [operand]) }

mutual

/-- `Compile` on statement nodes.  `ReturnStatement` has no case in the Go
switch, so compiling it does nothing. -/
def compileStmt : Stmt → CState → Except String CState
  | .exprS e, st => do
    let st1 ← compileExpr e st
    pure (emitC st1 opPop []).2
  | .blockS stmts, st => compileStmts stmts st
  | .letS name value, st => do
    let st1 ← compileExpr value st
    let def1 := st1.symbolTable.define name
    let st2 := { st1 with symbolTable := def1.2 }
    pure (emitC st2 opSetGlobal [def1.1.index]).2
  | .returnS _, st => pure st

/-- `Compile` on expression nodes.  `FunctionLiteral`, `CallExpression` and
`IndexExpression` have no case in the Go switch of this revision, so they
compile to nothing. -/
def compileExpr : Expr → CState → Except String CState
  | .infixE op l r, st =>
    if op == "<" then do
      let st1 ← compileExpr r st
      let st2 ← compileExpr l st1
      pure (emitC st2 opGreaterThan []).2
    else do
      let st1 ← compileExpr l st
      let st2 ← compileExpr r st1
      if op == "+" then pure (emitC st2 opAdd []).2
      else if op == "-" then pure (emitC st2 opSub []).2
      else if op == "*" then pure (emitC st2 opMul []).2
      else if op == "/" then pure (emitC st2 opDiv []).2
      else if op == ">" then pure (emitC st2 opGreaterThan []).2
      else if op == "==" then pure (emitC st2 opEqual []).2
      else if op == "!=" then pure (emitC st2 opNotEqual []).2
      else throw ("unknown operator " ++ op)
  | .prefixE op r, st => do
    let st1 ← compileExpr r st
    if op == "-" then pure (emitC st1 opMinus []).2
    else if op == "!" then pure (emitC st1 opBang []).2
    else pure st1  -- no default case in the Go switch on the operator
  | .ifE cond cons alt, st => do
    let st1 ← compileExpr cond st
    let jnt := emitC st1 opJumpNotTruthy [9999]
    let st3 ← compileStmts cons jnt.2
    let st4 := if lastInstructionIsPop st3 then removeLastPop st3 else st3
    let jmp := emitC st4 opJump [9999]
    let afterConsequencePos := jmp.2.instructions.length
    let st6 := changeOperand jmp.2 jnt.1 afterConsequencePos
    let st7 ← compileIfAlternative alt st6
    let afterAlternativePos := st7.instructions.length
    pure (changeOperand st7 jmp.1 afterAlternativePos)
  | .boolLit b, st =>
    if b then pure (emitC st opTrue []).2 else pure (emitC st opFalse []).2
  | .intLit v, st =>
    let c := addConstant st (.integer v)
    pure (emitC c.2 opConstant [c.1]).2
  | .strLit s, st =>
    let c := addConstant st (.str s)
    pure (emitC c.2 opConstant [c.1]).2
  | .arrayLit elems, st => do
    let st1 ← compileExprs elems st
    pure (emitC st1 opArray [elems.length]).2
  | .ident name, st =>
    match st.symbolTable.resolve name with
    | none => throw ("undefined variable " ++ name)
    | some symbol => pure (emitC st opGetGlobal [symbol.index]).2
  | .funcLit _ _, st => pure st
  | .callE _ _, st => pure st
  | .indexE _ _, st => pure st

/-- The `node.Alternative` handling of the `IfExpression` case: emit a
single `OpNull` when the alternative is absent, otherwise compile the
alternative block and remove a trailing `OpPop` as for the consequence. -/
def compileIfAlternative : Option (List Stmt) → CState → Except String CState
  | none, st => pure (emitC st opNull []).2
  | some altStmts, st => do
    let s1 ← compileStmts altStmts st
    pure (if lastInstructionIsPop s1 then removeLastPop s1 else s1)

/-- The statement loops of the `Program` and `BlockStatement` cases. -/
def compileStmts : List Stmt → CState → Except String CState
  | [], st => pure st
  | s :: rest, st => do
    let st1 ← compileStmt s st
    compileStmts rest st1

/-- The element loop of the `ArrayLiteral` case. -/
def compileExprs : List Expr → CState → Except String CState
  | [], st => pure st
  | e :: rest, st => do
    let st1 ← compileExpr e st
    compileExprs rest st1

end

/-! ## Virtual machine (package `monkey/vm`, `vm.go`) -/

def StackSize : Nat := 2048

/-- The outcome of `VM.Run`: normal completion (with the live stack for
inspection), a returned error, or a Go runtime panic (failed type
assertion, index out of range). -/
inductive VMOutcome where
  | ok (stack : List Obj)
  | err (msg : String)
  | panic

/-- `Run`'s main loop.  The stack is modelled by its live prefix (top
first): `push` at `sp == StackSize` is an error, `pop` of an empty stack
yields Go nil.  `OpConstant` pushes `constants[idx]` and propagates the
push error; `OpAdd` pops right then left, type-asserts both to integers
(panicking otherwise — also on the nil from popping an empty stack), adds
with `int64` wrap-around, and pushes while *discarding* the push error.
Every other opcode has no case in the switch, so the loop just advances
`ip` past the single byte. -/
def vmLoop (constants : List Obj) (ins : List Nat) :
    Nat → List Obj → Nat → VMOutcome
  | 0, stack, _ => .ok stack
  | gas + 1, stack, ip =>
    if ip < ins.length then
      let op := ins.getD ip 0
      if op == opConstant then
        match readUint16 (ins.drop (ip + 1)) with
        | none => .panic
        | some constIndex =>
          match constants.get? constIndex with
          | none => .panic
          | some c =>
            if StackSize ≤ stack.length then .err "stack overflow"
            else vmLoop constants ins gas (c :: stack) (ip + 3)
      else if op == opAdd then
        match stack with
        | right :: left :: rest =>
          match left, right with
          | .integer leftValue, .integer rightValue =>
            let result := wrap64 (leftValue + rightValue)
            if StackSize ≤ rest.length then vmLoop constants ins gas rest (ip + 1)
            else vmLoop constants ins gas (.integer result :: rest) (ip + 1)
          | _, _ => .panic
        | _ => .panic
      else vmLoop constants ins gas stack (ip + 1)
    else .ok stack

/-- `VM.Run` on a bytecode (instructions plus constant pool), from the
empty stack.  Every iteration of the Go loop advances `ip` by at least one
byte and the loop exits once `ip` reaches the end of the instructions, so
a gas of `ins.length + 1` is never exhausted and the `gas = 0` branch is
unreachable. -/
def vmRun (constants : List Obj) (ins : List Nat) : VMOutcome :=
  vmLoop constants ins (ins.length + 1) [] 0

/-! ## Verification predicates -/

mutual

/-- Every boolean object occurring inside the value (also under
`ReturnValue` and array elements) is one of the two singleton allocations
`TRUE` and `FALSE`. -/
def boolOKb : Obj → Bool
  | .boolean true 0 => true
  | .boolean false 1 => true
  | .boolean _ _ => false
  | .returnValue (some v) => boolOKb v
  | .returnValue none => true
  | .array elems => boolOKbList elems
  | .integer _ => true
  | .str _ => true
  | .null => true
  | .error _ => true
  | .func _ _ _ _ => true
  | .builtin _ => true

def boolOKbList : List Obj → Bool
  | [] => true
  | o :: rest => boolOKb o && boolOKbList rest

end

/-- A (possibly nil) evaluator result contains only singleton booleans. -/
def resOK : Res → Bool
  | some o => boolOKb o
  | none => true

/-- Every value stored in any allocated environment contains only
singleton booleans. -/
def storeOK (st : EvalState) : Bool :=
  st.envs.all fun e => e.table.all fun p => resOK p.2

/-- The lexer has consumed all input bytes: the current character is the
end-of-input marker 0 and the read position is past the input.  (An
embedded NUL byte inside the input does not satisfy this predicate.) -/
def lexerAtEOF (l : Lexer) : Prop :=
  l.ch = 0 ∧ l.input.length ≤ l.readPosition

/-! # Theorems -/

/-! ## Helper lemmas -/

theorem nativeBool_typeTag (b : Bool) :
    (nativeBoolToBooleanObject b).typeTag = "BOOLEAN" := by
  cases b <;> rfl

theorem nativeBool_boolOK (b : Bool) :
    boolOKb (nativeBoolToBooleanObject b) = true := by
  cases b <;> rfl

/-- Objects whose type tags differ are never identical Go pointers. -/
theorem objIdentityEq_false_of_typeTag_ne (l r : Obj)
    (h : l.typeTag ≠ r.typeTag) : objIdentityEq l r = false := by
  cases l <;> cases r <;> simp_all [Obj.typeTag, objIdentityEq]

/-! ## C4 — `!` and truthiness -/

/-- C4: for every runtime value `x`, `!x` evaluates to the `TRUE` singleton
exactly when `x` is the `FALSE` singleton or the `NULL` singleton, and to
`FALSE` for every other value; equivalently `isTruthy x` is false iff `x`
is `FALSE` or `NULL`. -/
theorem c4_bang_iff_false_or_null (x : Obj) :
    (evalBangOperatorExpression (some x) = TRUE ↔ (x = FALSE ∨ x = NULL))
    ∧ (x ≠ FALSE → x ≠ NULL → evalBangOperatorExpression (some x) = FALSE)
    ∧ (isTruthy (some x) = false ↔ (x = FALSE ∨ x = NULL)) := by
  cases x with
  | boolean b i =>
    cases b <;> rcases i with _ | _ | i <;>
      simp [evalBangOperatorExpression, isTruthy, TRUE, FALSE, NULL]
  | integer v =>
    simp [evalBangOperatorExpression, isTruthy, TRUE, FALSE, NULL]
  | str s =>
    simp [evalBangOperatorExpression, isTruthy, TRUE, FALSE, NULL]
  | null =>
    simp [evalBangOperatorExpression, isTruthy, TRUE, FALSE, NULL]
  | returnValue v =>
    simp [evalBangOperatorExpression, isTruthy, TRUE, FALSE, NULL]
  | error m =>
    simp [evalBangOperatorExpression, isTruthy, TRUE, FALSE, NULL]
  | func p bd e a =>
    simp [evalBangOperatorExpression, isTruthy, TRUE, FALSE, NULL]
  | builtin n =>
    simp [evalBangOperatorExpression, isTruthy, TRUE, FALSE, NULL]
  | array el =>
    simp [evalBangOperatorExpression, isTruthy, TRUE, FALSE, NULL]

theorem c4_bang_iff_false_or_null_witness :
    evalBangOperatorExpression (some (Obj.integer 7)) = FALSE
    ∧ evalBangOperatorExpression (some NULL) = TRUE :=
  ⟨(c4_bang_iff_false_or_null (Obj.integer 7)).2.1 (by simp [FALSE])
     (by simp [NULL]),
   ((c4_bang_iff_false_or_null NULL).1).mpr (Or.inr rfl)⟩

/-! ## C5 — totality of the integer infix operators -/

/-- C5: for two integer operands every one of `+ - * < > == !=` succeeds
without producing an `Error` (and without reaching a panicking branch), and
`/` succeeds with the wrapped truncated quotient whenever the divisor is
nonzero. -/
theorem c5_integer_infix_total (l r : Int) :
    (∀ op ∈ ["+", "-", "*", "<", ">", "==", "!="],
      ∃ o, evalIntegerInfixExpression op (.integer l) (.integer r) = some o
        ∧ o.typeTag ≠ "ERROR")
    ∧ (r ≠ 0 →
      evalIntegerInfixExpression "/" (.integer l) (.integer r)
        = some (.integer (wrap64 (l.tdiv r)))) := by
  constructor
  · intro op hop
    simp only [List.mem_cons, List.not_mem_nil, or_false] at hop
    rcases hop with rfl | rfl | rfl | rfl | rfl | rfl | rfl
    · exact ⟨_, rfl, by simp [Obj.typeTag]⟩
    · exact ⟨_, rfl, by simp [Obj.typeTag]⟩
    · exact ⟨_, rfl, by simp [Obj.typeTag]⟩
    · exact ⟨_, rfl, by simp [nativeBool_typeTag]⟩
    · exact ⟨_, rfl, by simp [nativeBool_typeTag]⟩
    · exact ⟨_, rfl, by simp [nativeBool_typeTag]⟩
    · exact ⟨_, rfl, by simp [nativeBool_typeTag]⟩
  · intro hr
    simp [evalIntegerInfixExpression, hr]

theorem c5_integer_infix_total_witness :
    (∃ o, evalIntegerInfixExpression "+" (.integer 2) (.integer 3) = some o
      ∧ o.typeTag ≠ "ERROR")
    ∧ evalIntegerInfixExpression "/" (.integer 7) (.integer 2)
        = some (.integer (wrap64 (Int.tdiv 7 2))) :=
  ⟨(c5_integer_infix_total 2 3).1 "+" (by decide),
   (c5_integer_infix_total 7 2).2 (by decide)⟩

/-! ## C2 — infix expressions over operands of differing types -/

/-- C2 counterexample: evaluating `5 == true` (operands of differing type
tags, neither an error) yields the `FALSE` singleton — a `BOOLEAN`, not the
`type mismatch: INTEGER == BOOLEAN` error the claim requires for `==`. -/
theorem c2_counterexample_eq_mixed_types :
    evalInfixExpression "==" (some (Obj.integer 5)) (some TRUE) = some FALSE
    ∧ (Obj.integer 5).typeTag ≠ TRUE.typeTag
    ∧ ¬ isError (some (Obj.integer 5)) ∧ ¬ isError (some TRUE)
    ∧ ∀ m : String, FALSE ≠ Obj.error m := by
  refine ⟨rfl, by decide, by decide, by decide, ?_⟩
  intro m h
  simp [FALSE] at h

/-- C2 amended: for operands whose type tags differ (neither an error),
every infix operator other than `==` and `!=` yields exactly the
`type mismatch: <TYPE> <OP> <TYPE>` error; `==` itself yields the `FALSE`
singleton and `!=` the `TRUE` singleton, because distinct-typed operands
are never identical. -/
theorem c2_mixed_types_infix_result (l r : Obj) (hne : l.typeTag ≠ r.typeTag) :
    (∀ op : String, op ≠ "==" → op ≠ "!=" →
      evalInfixExpression op (some l) (some r)
        = some (.error ("type mismatch: " ++ l.typeTag ++ " " ++ op ++ " "
            ++ r.typeTag)))
    ∧ evalInfixExpression "==" (some l) (some r) = some FALSE
    ∧ evalInfixExpression "!=" (some l) (some r) = some TRUE := by
  have hid := objIdentityEq_false_of_typeTag_ne l r hne
  have hint : (l.typeTag == "INTEGER" && r.typeTag == "INTEGER") = false := by
    by_cases hl : l.typeTag = "INTEGER" <;> by_cases hr : r.typeTag = "INTEGER" <;>
      simp_all
  have hstr : (l.typeTag == "STRING" && r.typeTag == "STRING") = false := by
    by_cases hl : l.typeTag = "STRING" <;> by_cases hr : r.typeTag = "STRING" <;>
      simp_all
  refine ⟨?_, ?_, ?_⟩
  · intro op h1 h2
    simp [evalInfixExpression, hint, hstr, h1, h2, hne, newError]
  · simp [evalInfixExpression, hint, hstr, hid, nativeBoolToBooleanObject]
  · simp [evalInfixExpression, hint, hstr, hid, nativeBoolToBooleanObject]

theorem c2_mixed_types_infix_result_witness :
    evalInfixExpression "+" (some (Obj.str "a")) (some (Obj.integer 1))
      = some (.error ("type mismatch: " ++ (Obj.str "a").typeTag ++ " " ++ "+"
          ++ " " ++ (Obj.integer 1).typeTag))
    ∧ evalInfixExpression "==" (some (Obj.str "a")) (some (Obj.integer 1))
        = some FALSE :=
  ⟨((c2_mixed_types_infix_result (Obj.str "a") (Obj.integer 1) (by decide)).1 "+"
      (by decide) (by decide)),
   (c2_mixed_types_infix_result (Obj.str "a") (Obj.integer 1) (by decide)).2.1⟩

/-! ## C1 — block statements stop at the first non-nil result -/

/-- C1 (code bug): evaluating the block `{ 5; 10 }` — two expression
statements, neither yielding a `ReturnValue` or an `Error` — returns the
value of the *first* statement, `5`, not the value of the last statement
`10` required by the claim: `evalBlockStatement` returns after any
statement whose result is non-nil. -/
theorem c1_block_returns_first_result :
    evalFuel 10 (.stmt (.blockS [.exprS (.intLit 5), .exprS (.intLit 10)])) 0
        initialState
      = some (some (.integer 5), initialState)
    ∧ Obj.integer 5 ≠ Obj.integer 10 := by
  refine ⟨rfl, ?_⟩
  intro h
  simp at h

/-! ## C3 — VM arithmetic on unsupported operand types -/

/-- C3 (code bug): running the bytecode of `"a" + "b"` — `OpAdd` popping
two Strings — panics at the unconditional `*object.Integer` type
assertions instead of returning the `unsupported types for binary
operation` error the claim requires; and `OpSub` (likewise `OpMul`/`OpDiv`)
has no case in the `Run` switch at all, so running it neither errs nor
touches the stack (both operands stay pushed). -/
theorem c3_vm_add_nonintegers_panics :
    vmRun [.str "a", .str "b"]
        (make opConstant [0] ++ make opConstant [1] ++ make opAdd []
          ++ make opPop [])
      = .panic
    ∧ vmRun [.integer 1, .integer 2]
        (make opConstant [0] ++ make opConstant [1] ++ make opSub [])
      = .ok [.integer 2, .integer 1]
    ∧ (∀ m : String, VMOutcome.panic ≠ .err m)
    ∧ (∀ s m, VMOutcome.ok s ≠ .err m) := by
  refine ⟨rfl, rfl, ?_, ?_⟩
  · intro m h
    cases h
  · intro s m h
    cases h

/-! ## C9 — the lexer's EOF state is absorbing -/

/-- One `NextToken` call from a fully consumed input: it returns the `EOF`
token with an empty literal, and the lexer stays fully consumed. -/
theorem nextToken_step_atEOF (l : Lexer) (h : lexerAtEOF l) :
    (nextToken l).1 = ⟨"EOF", ""⟩ ∧ lexerAtEOF (nextToken l).2 := by
  obtain ⟨hch, hpos⟩ := h
  have hskip : skipWhitespace l = l := by
    show skipWhitespaceFuel (l.input.length + 2) l = l
    have : l.input.length + 2 = (l.input.length + 1) + 1 := rfl
    rw [this, skipWhitespaceFuel]
    simp [isWhitespace, hch]
  constructor
  · simp [nextToken, hskip, hch, isLetter, isDigit]
  · simp only [nextToken, hskip, hch]
    norm_num [isLetter, isDigit, lexerAtEOF, readChar, hpos]
    omega

/-- C9: once the lexer has consumed all its input bytes (current character
is the 0 end marker and the read position is past the input), every
further `NextToken` call — the next one and each one after any number of
additional calls — returns the token `(EOF, "")`, and the consumed state
persists. -/
theorem c9_lexer_eof_absorbing (l : Lexer) (h : lexerAtEOF l) (n : Nat) :
    (nextToken (nextTokenState n l)).1 = ⟨"EOF", ""⟩
    ∧ lexerAtEOF (nextToken (nextTokenState n l)).2 := by
  induction n generalizing l with
  | zero => exact nextToken_step_atEOF l h
  | succ n ih =>
    have step := nextToken_step_atEOF l h
    show (nextToken (nextTokenState n (nextToken l).2)).1 = _ ∧ _
    exact ih (nextToken l).2 step.2

theorem c9_lexer_eof_absorbing_witness :
    (nextToken (nextTokenState 3 (nextTokenState 1 (lexNew [97, 98])))).1
      = ⟨"EOF", ""⟩ :=
  (c9_lexer_eof_absorbing (nextTokenState 1 (lexNew [97, 98]))
    (by constructor <;> decide) 3).1

/-! ## C6 — `<` compiles by swapping operands and emitting `OpGreaterThan` -/

/-- C6: compiling `a < b` emits the code of the right operand, then the
left operand, then one `OpGreaterThan`; this is the very same state
transformation as compiling `b > a`, and the opcode table has no dedicated
less-than opcode. -/
theorem c6_less_than_swaps_operands (a b : Expr) (st : CState) :
    compileExpr (.infixE "<" a b) st
      = (compileExpr b st >>= fun st1 =>
         compileExpr a st1 >>= fun st2 =>
         pure (emitC st2 opGreaterThan []).2)
    ∧ compileExpr (.infixE "<" a b) st = compileExpr (.infixE ">" b a) st
    ∧ ∀ p ∈ definitionsList, p.2.name ≠ "OpLessThan" := by
  refine ⟨?_, ?_, by decide⟩
  · conv_lhs => rw [compileExpr.eq_def]
    simp
  · conv_lhs => rw [compileExpr.eq_def]
    conv_rhs => rw [compileExpr.eq_def]
    simp

/-! ## C8 — instruction encoding round-trips -/

/-- Every opcode in the definitions table is below 27 and has operand
widths `[]`, `[1]` or `[2]`. -/
theorem definitionsList_shape :
    ∀ p ∈ definitionsList,
      p.1 < 27 ∧ (p.2.operandWidths = [] ∨ p.2.operandWidths = [1]
        ∨ p.2.operandWidths = [2]) := by
  decide

theorem lookupDef_mem {op : Nat} {d : OpDefinition}
    (h : lookupDef op = some d) : (op, d) ∈ definitionsList := by
  unfold lookupDef at h
  cases hf : definitionsList.find? (fun p => p.1 == op) with
  | none => rw [hf] at h; cases h
  | some p =>
    rw [hf] at h
    have hm := List.mem_of_find?_eq_some hf
    have hp : p.1 = op := by simpa using List.find?_some hf
    obtain ⟨p1, p2⟩ := p
    simp at h
    subst hp
    subst h
    exact hm

/-- Decoding the operand bytes written by `Make` recovers the operands and
the total operand width, and the byte count is the width sum, provided
every width is 1 or 2 (true of every defined opcode) and every operand is
in range for its width. -/
theorem readOperands_putOperands (widths operands : List Nat)
    (hw : ∀ w ∈ widths, w = 1 ∨ w = 2)
    (hr : List.Forall₂ (fun o w => o < 2 ^ (8 * w)) operands widths) :
    readOperands widths (putOperands widths operands)
        = some (operands, widths.sum)
    ∧ (putOperands widths operands).length = widths.sum := by
  induction hr with
  | nil => simp [readOperands, putOperands]
  | @cons o w os ws ho hrest ih =>
    have hw' : ∀ u ∈ ws, u = 1 ∨ u = 2 := fun u hu => hw u (by simp [hu])
    obtain ⟨ih1, ih2⟩ := ih hw'
    rcases hw w (by simp) with rfl | rfl
    · have hlt : o < 256 := by norm_num at ho; omega
      constructor
      · simp only [putOperands, readOperands]
        norm_num [readUint8, Nat.mod_eq_of_lt hlt, ih1]
        omega
      · simp only [putOperands]
        simp [ih2]
        omega
    · have hlt : o < 65536 := by norm_num at ho; omega
      have hdiv : o / 256 < 256 := by omega
      constructor
      · simp only [putOperands, readOperands]
        norm_num [readUint16, Nat.mod_eq_of_lt hdiv, ih1]
        constructor
        · omega
        · omega
      · simp only [putOperands]
        simp [ih2]
        omega

/-- C8: for every defined opcode and every operand list in range for the
definition's widths, `Make` yields the opcode byte followed by the
big-endian-encoded operands, of total length `1 + Σ widths`; and
`ReadOperands` on the bytes after the opcode returns exactly the operands
together with `Σ widths`.  The final conjunct exhibits the big-endian
layout of a 2-byte operand. -/
theorem c8_make_read_roundtrip (op : Nat) (d : OpDefinition)
    (hop : lookupDef op = some d) (operands : List Nat)
    (hr : List.Forall₂ (fun o w => o < 2 ^ (8 * w)) operands d.operandWidths) :
    make op operands = op :: putOperands d.operandWidths operands
    ∧ (make op operands).length = 1 + d.operandWidths.sum
    ∧ readOperands d.operandWidths ((make op operands).drop 1)
        = some (operands, d.operandWidths.sum)
    ∧ ∀ o < 2 ^ 16, putOperands [2] [o] = [o / 256, o % 256] := by
  have hshape := definitionsList_shape _ (lookupDef_mem hop)
  have hople : op < 27 := hshape.1
  have hw : ∀ w ∈ d.operandWidths, w = 1 ∨ w = 2 := by
    rcases hshape.2 with h | h | h <;> rw [h] <;> intro w hw <;> simp_all
  obtain ⟨hread, hlen⟩ := readOperands_putOperands _ _ hw hr
  have hmake : make op operands = op :: putOperands d.operandWidths operands := by
    unfold make
    rw [hop]
    rw [Nat.mod_eq_of_lt (by omega)]
  refine ⟨hmake, ?_, ?_, ?_⟩
  · rw [hmake]
    simp [hlen]
    omega
  · rw [hmake]
    simpa using hread
  · intro o ho
    have : o / 256 < 256 := by omega
    simp [putOperands, Nat.mod_eq_of_lt this]

theorem c8_make_read_roundtrip_witness :
    make opConstant [65534] = opConstant :: putOperands [2] [65534]
    ∧ readOperands [2] ((make opConstant [65534]).drop 1)
        = some ([65534], 2) := by
  have h := c8_make_read_roundtrip opConstant ⟨"OpConstant", [2]⟩ rfl [65534]
    (List.Forall₂.cons (by norm_num) List.Forall₂.nil)
  exact ⟨h.1, by simpa using h.2.2.1⟩

/-! ## C7 — compilation of `if` expressions -/

theorem bind_ok_eq {α β : Type} (a : α) (f : α → Except String β) :
    (Except.ok a : Except String α) >>= f = f a := rfl

/-- Removing the `OpPop` just emitted restores the instruction stream (the
`previousInstruction` record stays stale, as in the source). -/
theorem remove_emit_pop (s : CState) :
    removeLastPop (emitC s opPop []).2
      = { s with previousInstruction := s.lastInstruction } := by
  simp only [removeLastPop, emitC]
  congr 1
  exact List.take_left _ _

theorem lastIsPop_emit_pop (s : CState) :
    lastInstructionIsPop (emitC s opPop []).2 = true := rfl

theorem getD_append_cons (A : List Nat) (b : Nat) (rest : List Nat) :
    (A ++ b :: rest).getD A.length 0 = b := by
  induction A with
  | nil => rfl
  | cons a as ih => simpa using ih

theorem drop_append_cons (A : List Nat) (b : Nat) (rest : List Nat) :
    (A ++ b :: rest).drop (A.length + 1) = rest := by
  induction A with
  | nil => rfl
  | cons a as ih => simp [ih]

theorem replaceInstruction_append (A mid rest new : List Nat)
    (h : new.length = mid.length) :
    replaceInstruction (A ++ mid ++ rest) A.length new = A ++ new ++ rest := by
  have h1 : List.take A.length (A ++ mid ++ rest) = A := by
    rw [List.append_assoc]
    exact List.take_left _ _
  have h2 : List.drop (A.length + new.length) (A ++ mid ++ rest) = rest := by
    rw [h, ← List.length_append A mid]
    exact List.drop_left _ _
  unfold replaceInstruction
  rw [h1, h2, List.append_assoc]

/-- `changeOperand` on a stream holding a 3-byte instruction at the patch
position splices in the re-made instruction. -/
theorem changeOperand_at (s : CState) (A rest : List Nat) (b b1 b2 n : Nat)
    (hins : s.instructions = A ++ [b, b1, b2] ++ rest)
    (hlen : (make b [n]).length = 3) :
    changeOperand s A.length n
      = { s with instructions := A ++ make b [n] ++ rest } := by
  have hget : (A ++ [b, b1, b2] ++ rest).getD A.length 0 = b := by
    rw [List.append_assoc]
    simpa using getD_append_cons A b ([b1, b2] ++ rest)
  unfold changeOperand
  simp only [hins, hget]
  rw [replaceInstruction_append A [b, b1, b2] rest _ (by simp [hlen])]

theorem compileIfAlternative_none (s : CState) :
    compileIfAlternative none s = Except.ok (emitC s opNull []).2 := by
  rw [compileIfAlternative.eq_def]
  rfl

/-- Compiling a one-statement block `[x;]` compiles `x` and emits the
trailing `OpPop`. -/
theorem compileStmts_single_expr (x : Expr) (s sx : CState)
    (hx : compileExpr x s = .ok sx) :
    compileStmts [Stmt.exprS x] s = Except.ok (emitC sx opPop []).2 := by
  rw [compileStmts.eq_def]
  have hstep : compileStmt (Stmt.exprS x) s = Except.ok (emitC sx opPop []).2 := by
    rw [compileStmt.eq_def]
    simp only [hx, bind_ok_eq]
    rfl
  simp only [hstep, bind_ok_eq]
  rw [compileStmts.eq_def]
  rfl

/-- C7: compiling `if (c) { x }` (consequence a single expression
statement) emits the condition's code, an `OpJumpNotTruthy`, the
consequence's code with its trailing `OpPop` removed, an `OpJump`, and an
`OpNull`; the `OpJumpNotTruthy` operand is patched to the position
immediately after the `OpJump` — which is exactly the `OpNull` instruction
— and the `OpJump` operand to the position after that.  With an `else`
branch, the alternative's code (pop likewise removed) replaces the
`OpNull`, the `OpJumpNotTruthy` lands at its start and the `OpJump` right
after it. -/
theorem c7_if_compilation_shape :
    (∀ (c x : Expr) (st st1 stx : CState) (C X : List Nat),
      compileExpr c st = .ok st1 →
      st1.instructions = st.instructions ++ C →
      compileExpr x (emitC st1 opJumpNotTruthy [9999]).2 = .ok stx →
      stx.instructions
          = (emitC st1 opJumpNotTruthy [9999]).2.instructions ++ X →
      (compileExpr (.ifE c [.exprS x] none) st).map CState.instructions
          = .ok (st.instructions ++ C
              ++ make opJumpNotTruthy
                  [st.instructions.length + C.length + 6 + X.length]
              ++ X
              ++ make opJump
                  [st.instructions.length + C.length + 7 + X.length]
              ++ [opNull])
        ∧ (st.instructions ++ C
              ++ make opJumpNotTruthy
                  [st.instructions.length + C.length + 6 + X.length]
              ++ X
              ++ make opJump
                  [st.instructions.length + C.length + 7 + X.length]
              ++ [opNull]).getD
            (st.instructions.length + C.length + 6 + X.length) 0 = opNull
        ∧ (st.instructions.length + C.length + 6 + X.length < 2 ^ 16 →
            readUint16
              ((st.instructions ++ C
                ++ make opJumpNotTruthy
                    [st.instructions.length + C.length + 6 + X.length]
                ++ X
                ++ make opJump
                    [st.instructions.length + C.length + 7 + X.length]
                ++ [opNull]).drop (st.instructions.length + C.length + 1))
              = some (st.instructions.length + C.length + 6 + X.length)))
    ∧ (∀ (c x y : Expr) (st st1 stx sty : CState) (C X Y : List Nat),
      compileExpr c st = .ok st1 →
      st1.instructions = st.instructions ++ C →
      compileExpr x (emitC st1 opJumpNotTruthy [9999]).2 = .ok stx →
      stx.instructions
          = (emitC st1 opJumpNotTruthy [9999]).2.instructions ++ X →
      compileExpr y
          (changeOperand
            (emitC (removeLastPop (emitC stx opPop []).2) opJump [9999]).2
            (emitC st1 opJumpNotTruthy [9999]).1
            (emitC (removeLastPop (emitC stx opPop []).2) opJump
              [9999]).2.instructions.length)
        = .ok sty →
      sty.instructions
          = (changeOperand
              (emitC (removeLastPop (emitC stx opPop []).2) opJump [9999]).2
              (emitC st1 opJumpNotTruthy [9999]).1
              (emitC (removeLastPop (emitC stx opPop []).2) opJump
                [9999]).2.instructions.length).instructions ++ Y →
      (compileExpr (.ifE c [.exprS x] (some [.exprS y])) st).map
          CState.instructions
        = .ok (st.instructions ++ C
            ++ make opJumpNotTruthy
                [st.instructions.length + C.length + 6 + X.length]
            ++ X
            ++ make opJump
                [st.instructions.length + C.length + 6 + X.length + Y.length]
            ++ Y)) := by
  constructor
  · intro c x st st1 stx C X hc hcl hx hxl
    have hcons := compileStmts_single_expr x _ _ hx
    have hmkJ : make opJump [9999] = [13, 39, 15] := rfl
    have hXins : stx.instructions
        = (st.instructions ++ C) ++ [14, 39, 15] ++ X := by
      rw [hxl]
      show st1.instructions ++ make opJumpNotTruthy [9999] ++ X = _
      rw [hcl]
      rfl
    refine ⟨?_, ?_, ?_⟩
    · conv_lhs => rw [compileExpr.eq_def]
      simp only [hc, bind_ok_eq, hcons, lastIsPop_emit_pop, if_pos,
        remove_emit_pop]
      set R : CState := { stx with previousInstruction := stx.lastInstruction }
        with hR
      have hRins : R.instructions
          = (st.instructions ++ C) ++ [14, 39, 15] ++ X := hXins
      have hjntpos : (emitC st1 opJumpNotTruthy [9999]).1
          = (st.instructions ++ C).length := by
        show st1.instructions.length = _
        rw [hcl]
      have hjmpins : (emitC R opJump [9999]).2.instructions
          = (st.instructions ++ C) ++ [14, 39, 15] ++ (X ++ [13, 39, 15]) := by
        show R.instructions ++ make opJump [9999] = _
        rw [hRins, hmkJ]
        simp [List.append_assoc]
      set n1 := (emitC R opJump [9999]).2.instructions.length with hn1
      have hchg1 : changeOperand (emitC R opJump [9999]).2
            (emitC st1 opJumpNotTruthy [9999]).1 n1
          = { (emitC R opJump [9999]).2 with
              instructions :=
                (st.instructions ++ C)
                ++ make 14 [n1] ++ (X ++ [13, 39, 15]) } := by
        rw [hjntpos]
        exact changeOperand_at _ _ _ 14 39 15 _ hjmpins rfl
      set S1 := changeOperand (emitC R opJump [9999]).2
          (emitC st1 opJumpNotTruthy [9999]).1 n1 with hS1
      have hS1ins : S1.instructions
          = (st.instructions ++ C) ++ make 14 [n1] ++ (X ++ [13, 39, 15]) := by
        rw [hchg1]
      rw [compileIfAlternative_none, bind_ok_eq]
      set A2 := (st.instructions ++ C) ++ make 14 [n1] ++ X with hA2
      have hm14len : (make 14 [n1]).length = 3 := rfl
      have hjmppos : (emitC R opJump [9999]).1 = A2.length := by
        show R.instructions.length = _
        rw [hRins, hA2]
        simp [List.length_append, hm14len]
        omega
      have hmkN : make opNull [] = [15] := rfl
      have hnullins : (emitC S1 opNull []).2.instructions
          = A2 ++ [13, 39, 15] ++ [15] := by
        show S1.instructions ++ make opNull [] = _
        rw [hS1ins, hA2, hmkN]
        simp [List.append_assoc]
      set n2 := (emitC S1 opNull []).2.instructions.length with hn2
      have hchg2 : changeOperand (emitC S1 opNull []).2
            (emitC R opJump [9999]).1 n2
          = { (emitC S1 opNull []).2 with
              instructions := A2 ++ make 13 [n2] ++ [15] } := by
        rw [hjmppos]
        exact changeOperand_at _ _ _ 13 39 15 _ hnullins rfl
      rw [hchg2]
      have hn1v : n1 = st.instructions.length + C.length + 6 + X.length := by
        rw [hn1, hjmpins]
        simp [List.length_append]
        omega
      have hn2v : n2 = st.instructions.length + C.length + 7 + X.length := by
        rw [hn2, hnullins, hA2]
        simp [List.length_append, hm14len]
        omega
      show Except.ok _ = Except.ok _
      rw [hA2, hn1v, hn2v]
      simp only [opJumpNotTruthy, opJump, opNull]
    · set N1 := st.instructions.length + C.length + 6 + X.length with hN1
      set A3 := st.instructions ++ C ++ make opJumpNotTruthy [N1] ++ X
          ++ make opJump [N1 + 1] with hA3
      have hJlen : (make opJumpNotTruthy [N1]).length = 3 := rfl
      have hJlen2 : (make opJump [N1 + 1]).length = 3 := rfl
      have hA3len : N1 = A3.length := by
        rw [hA3]
        simp [List.length_append, hJlen, hJlen2]
        omega
      have : st.instructions.length + C.length + 7 + X.length = N1 + 1 := by
        omega
      rw [this]
      have hg := getD_append_cons A3 opNull []
      rw [← hA3len] at hg
      exact hg
    · intro hlt
      set N1 := st.instructions.length + C.length + 6 + X.length with hN1
      have : st.instructions.length + C.length + 7 + X.length = N1 + 1 := by
        omega
      rw [this]
      have hmk : make opJumpNotTruthy [N1] = [14, N1 / 256 % 256, N1 % 256] :=
        rfl
      have hshape : st.instructions ++ C ++ make opJumpNotTruthy [N1] ++ X
            ++ make opJump [N1 + 1] ++ [opNull]
          = (st.instructions ++ C)
            ++ 14 :: (N1 / 256 % 256) :: (N1 % 256)
              :: (X ++ make opJump [N1 + 1] ++ [opNull]) := by
        rw [hmk]
        simp [List.append_assoc]
      have hpos : st.instructions.length + C.length + 1
          = (st.instructions ++ C).length + 1 := by
        simp [List.length_append]
      rw [hshape, hpos, drop_append_cons]
      show some ((N1 / 256 % 256) * 256 + N1 % 256) = some N1
      have hdiv : N1 / 256 < 256 := by omega
      rw [Nat.mod_eq_of_lt hdiv]
      congr 1
      omega
  · intro c x y st st1 stx sty C X Y hc hcl hx hxl hy hyl
    have hcons := compileStmts_single_expr x _ _ hx
    have hmkJ : make opJump [9999] = [13, 39, 15] := rfl
    have hXins : stx.instructions
        = (st.instructions ++ C) ++ [14, 39, 15] ++ X := by
      rw [hxl]
      show st1.instructions ++ make opJumpNotTruthy [9999] ++ X = _
      rw [hcl]
      rfl
    simp only [remove_emit_pop] at hy hyl
    conv_lhs => rw [compileExpr.eq_def]
    simp only [hc, bind_ok_eq, hcons, lastIsPop_emit_pop, if_pos,
      remove_emit_pop]
    set R : CState := { stx with previousInstruction := stx.lastInstruction }
      with hR
    have hRins : R.instructions
        = (st.instructions ++ C) ++ [14, 39, 15] ++ X := hXins
    have hjntpos : (emitC st1 opJumpNotTruthy [9999]).1
        = (st.instructions ++ C).length := by
      show st1.instructions.length = _
      rw [hcl]
    have hjmpins : (emitC R opJump [9999]).2.instructions
        = (st.instructions ++ C) ++ [14, 39, 15] ++ (X ++ [13, 39, 15]) := by
      show R.instructions ++ make opJump [9999] = _
      rw [hRins, hmkJ]
      simp [List.append_assoc]
    set n1 := (emitC R opJump [9999]).2.instructions.length with hn1
    have hchg1 : changeOperand (emitC R opJump [9999]).2
          (emitC st1 opJumpNotTruthy [9999]).1 n1
        = { (emitC R opJump [9999]).2 with
            instructions :=
              (st.instructions ++ C)
              ++ make 14 [n1] ++ (X ++ [13, 39, 15]) } := by
      rw [hjntpos]
      exact changeOperand_at _ _ _ 14 39 15 _ hjmpins rfl
    set S1 := changeOperand (emitC R opJump [9999]).2
        (emitC st1 opJumpNotTruthy [9999]).1 n1 with hS1
    have hS1ins : S1.instructions
        = (st.instructions ++ C) ++ make 14 [n1] ++ (X ++ [13, 39, 15]) := by
      rw [hchg1]
    have hconsY := compileStmts_single_expr y _ _ hy
    have hAltSome : compileIfAlternative (some [Stmt.exprS y]) S1
        = Except.ok { sty with previousInstruction := sty.lastInstruction } := by
      rw [compileIfAlternative.eq_def]
      show (do
        let s1 ← compileStmts [Stmt.exprS y] S1
        pure (if lastInstructionIsPop s1 = true then removeLastPop s1 else s1) :
          Except String CState) = _
      rw [hconsY, bind_ok_eq, lastIsPop_emit_pop, if_pos rfl, remove_emit_pop]
      rfl
    rw [hAltSome, bind_ok_eq]
    set R2 : CState := { sty with previousInstruction := sty.lastInstruction }
      with hR2
    set A2 := (st.instructions ++ C) ++ make 14 [n1] ++ X with hA2
    have hm14len : (make 14 [n1]).length = 3 := rfl
    have hjmppos : (emitC R opJump [9999]).1 = A2.length := by
      show R.instructions.length = _
      rw [hRins, hA2]
      simp [List.length_append, hm14len]
      omega
    have hR2ins : R2.instructions = A2 ++ [13, 39, 15] ++ Y := by
      show sty.instructions = _
      rw [hyl, hS1ins, hA2]
      simp [List.append_assoc]
    set n2 := R2.instructions.length with hn2
    have hchg2 : changeOperand R2 (emitC R opJump [9999]).1 n2
        = { R2 with instructions := A2 ++ make 13 [n2] ++ Y } := by
      rw [hjmppos]
      exact changeOperand_at _ _ _ 13 39 15 _ hR2ins rfl
    rw [hchg2]
    have hn1v : n1 = st.instructions.length + C.length + 6 + X.length := by
      rw [hn1, hjmpins]
      simp [List.length_append]
      omega
    have hn2v : n2
        = st.instructions.length + C.length + 6 + X.length + Y.length := by
      rw [hn2, hR2ins, hA2]
      simp [List.length_append, hm14len]
      omega
    show Except.ok _ = Except.ok _
    rw [hA2, hn1v, hn2v]
    simp only [opJumpNotTruthy, opJump]

theorem c7_if_compilation_shape_witness :
    (compileExpr (.ifE (.boolLit true) [.exprS (.intLit 10)] none)
        compilerNew).map CState.instructions
      = .ok [6, 14, 0, 10, 0, 0, 0, 13, 0, 11, 15]
    ∧ (compileExpr (.ifE (.boolLit true) [.exprS (.intLit 10)]
          (some [.exprS (.intLit 20)])) compilerNew).map CState.instructions
      = .ok [6, 14, 0, 10, 0, 0, 0, 13, 0, 13, 0, 0, 1] := by
  constructor
  · have h := (c7_if_compilation_shape.1 (.boolLit true) (.intLit 10)
      compilerNew ⟨[6], [], ⟨6, 0⟩, ⟨0, 0⟩, ⟨[], 0⟩⟩
      ⟨[6, 14, 39, 15, 0, 0, 0], [.integer 10], ⟨0, 4⟩, ⟨14, 1⟩, ⟨[], 0⟩⟩
      [6] [0, 0, 0] rfl rfl rfl rfl).1
    exact h
  · have h := c7_if_compilation_shape.2 (.boolLit true) (.intLit 10)
      (.intLit 20) compilerNew ⟨[6], [], ⟨6, 0⟩, ⟨0, 0⟩, ⟨[], 0⟩⟩
      ⟨[6, 14, 39, 15, 0, 0, 0], [.integer 10], ⟨0, 4⟩, ⟨14, 1⟩, ⟨[], 0⟩⟩
      ⟨[6, 14, 0, 10, 0, 0, 0, 13, 39, 15, 0, 0, 1],
        [.integer 10, .integer 20], ⟨0, 10⟩, ⟨13, 7⟩, ⟨[], 0⟩⟩
      [6] [0, 0, 0] [0, 0, 1] rfl rfl rfl rfl rfl rfl
    exact h

/-! ## C10 — every evaluator boolean is a shared singleton -/

theorem boolOKbList_iff (l : List Obj) :
    boolOKbList l = true ↔ ∀ o ∈ l, boolOKb o = true := by
  induction l with
  | nil => simp [boolOKbList]
  | cons a rest ih => simp [boolOKbList, ih]

theorem lookupTable_resOK (table : List (String × Res)) (name : String)
    (v : Res) (htab : table.all (fun p => resOK p.2) = true)
    (h : lookupTable table name = some v) : resOK v = true := by
  induction table with
  | nil => cases h
  | cons p rest ih =>
    simp only [List.all_cons, Bool.and_eq_true] at htab
    rw [lookupTable] at h
    by_cases hk : p.1 == name
    · rw [if_pos hk] at h
      cases h
      exact htab.1
    · rw [if_neg hk] at h
      exact ih htab.2 h

theorem envGetAux_resOK (envs : List EnvData)
    (hst : envs.all (fun e => e.table.all (fun p => resOK p.2)) = true)
    (gas envId : Nat) (name : String) (v : Res)
    (h : envGetAux envs gas envId name = some v) : resOK v = true := by
  induction gas generalizing envId with
  | zero => cases h
  | succ gas ih =>
    rw [envGetAux] at h
    cases he : envs.get? envId with
    | none => rw [he] at h; cases h
    | some e =>
      rw [he] at h
      dsimp only at h
      have hetab : e.table.all (fun p => resOK p.2) = true := by
        have hmem : e ∈ envs := List.get?_mem he
        exact (List.all_eq_true.mp hst) e hmem
      cases hl : lookupTable e.table name with
      | some w =>
        rw [hl] at h
        cases h
        exact lookupTable_resOK _ _ _ hetab hl
      | none =>
        rw [hl] at h
        cases ho : e.outer with
        | none => rw [ho] at h; cases h
        | some o =>
          rw [ho] at h
          exact ih o h

theorem envGet_resOK (st : EvalState) (envId : Nat) (name : String) (v : Res)
    (hst : storeOK st = true) (h : envGet st envId name = some v) :
    resOK v = true :=
  envGetAux_resOK st.envs hst _ envId name v h

theorem setTable_all (table : List (String × Res)) (name : String) (v : Res)
    (htab : table.all (fun p => resOK p.2) = true) (hv : resOK v = true) :
    (setTable table name v).all (fun p => resOK p.2) = true := by
  induction table with
  | nil => simp [setTable, hv]
  | cons p rest ih =>
    simp only [List.all_cons, Bool.and_eq_true] at htab
    rw [setTable]
    by_cases hk : p.1 == name
    · rw [if_pos hk]
      simp [hv, htab.1, htab.2]
    · rw [if_neg hk]
      simp [htab.1, ih htab.2]

theorem envSet_storeOK (st : EvalState) (envId : Nat) (name : String)
    (v : Res) (hst : storeOK st = true) (hv : resOK v = true) :
    storeOK (envSet st envId name v) = true := by
  unfold envSet
  cases he : st.envs.get? envId with
  | none => exact hst
  | some e =>
    have hetab : e.table.all (fun p => resOK p.2) = true :=
      (List.all_eq_true.mp hst) e (List.get?_mem he)
    unfold storeOK
    rw [List.all_eq_true]
    intro e2 he2
    rcases List.mem_or_eq_of_mem_set he2 with hm | rfl
    · exact (List.all_eq_true.mp hst) e2 hm
    · exact setTable_all _ _ _ hetab hv

theorem newEnclosed_storeOK (st : EvalState) (outer : Nat)
    (hst : storeOK st = true) :
    storeOK (newEnclosedEnvironment st outer).2 = true := by
  unfold newEnclosedEnvironment storeOK
  simp only [List.all_append]
  unfold storeOK at hst
  simp [hst]

theorem bindParams_storeOK (ps : List String) (args : List Res)
    (st : EvalState) (envId : Nat) (hst : storeOK st = true)
    (hargs : args.all resOK = true) :
    storeOK (bindParams st envId ps args) = true := by
  induction ps generalizing args st with
  | nil => rw [bindParams]; exact hst
  | cons p ps ih =>
    cases args with
    | nil => rw [bindParams]; exact hst
    | cons a rest =>
      simp only [List.all_cons, Bool.and_eq_true] at hargs
      rw [bindParams]
      exact ih rest _ (envSet_storeOK _ _ _ _ hst hargs.1) hargs.2

theorem evalIntegerInfix_boolOK (op : String) (l r o : Obj)
    (h : evalIntegerInfixExpression op l r = some o) : boolOKb o = true := by
  unfold evalIntegerInfixExpression at h
  cases l <;> cases r <;> try cases h
  repeat' split at h
  all_goals try cases h
  all_goals first | rfl | exact nativeBool_boolOK _

theorem evalStringInfix_boolOK (op : String) (l r o : Obj)
    (h : evalStringInfixExpression op l r = some o) : boolOKb o = true := by
  unfold evalStringInfixExpression at h
  cases l <;> cases r <;> try cases h
  split_ifs at h <;> cases h <;> rfl

theorem evalInfix_boolOK (op : String) (l r : Res) (o : Obj)
    (h : evalInfixExpression op l r = some o) : boolOKb o = true := by
  unfold evalInfixExpression at h
  cases l with
  | none => cases h
  | some lo =>
    cases r with
    | none => cases h
    | some ro =>
      dsimp only at h
      repeat' split at h
      all_goals try cases h
      all_goals
        first
          | exact evalIntegerInfix_boolOK _ _ _ _ h
          | exact evalStringInfix_boolOK _ _ _ _ h
          | exact nativeBool_boolOK _
          | rfl

theorem evalBang_boolOK (r : Res) :
    boolOKb (evalBangOperatorExpression r) = true := by
  unfold evalBangOperatorExpression
  split <;> rfl

theorem evalMinus_boolOK (r : Res) (o : Obj)
    (h : evalMinusPrefixOperatorExpression r = some o) : boolOKb o = true := by
  unfold evalMinusPrefixOperatorExpression at h
  split at h <;> cases h <;> rfl

theorem evalPrefix_boolOK (op : String) (r : Res) (o : Obj)
    (h : evalPrefixExpression op r = some o) : boolOKb o = true := by
  unfold evalPrefixExpression at h
  split_ifs at h with h1 h2
  · cases h; exact evalBang_boolOK r
  · exact evalMinus_boolOK _ _ h
  · split at h
    all_goals cases h
    all_goals rfl

theorem boolOKbList_append (l1 l2 : List Obj) :
    boolOKbList (l1 ++ l2) = (boolOKbList l1 && boolOKbList l2) := by
  induction l1 with
  | nil => simp [boolOKbList]
  | cons a t ih => simp [boolOKbList, ih, Bool.and_assoc]

theorem head?_boolOK (elems : List Obj) (e : Obj)
    (hl : boolOKbList elems = true) (h : elems.head? = some e) :
    boolOKb e = true := by
  cases elems with
  | nil => cases h
  | cons a t =>
    cases h
    exact ((boolOKbList_iff _).mp hl) _ (by simp)

theorem getLast?_boolOK (elems : List Obj) (e : Obj)
    (hl : boolOKbList elems = true) (h : elems.getLast? = some e) :
    boolOKb e = true := by
  have hm : e ∈ elems := by
    obtain ⟨hne, heq⟩ := List.mem_getLast?_eq_getLast (Option.mem_def.mpr h)
    rw [heq]
    exact List.getLast_mem hne
  exact (boolOKbList_iff _).mp hl e hm

theorem tail_boolOK (elems : List Obj) (hl : boolOKbList elems = true) :
    boolOKbList elems.tail = true := by
  cases elems with
  | nil => exact hl
  | cons a t =>
    simp only [boolOKbList, Bool.and_eq_true] at hl
    simpa using hl.2

theorem applyBuiltin_boolOK (name : String) (args : List Res) (o : Obj)
    (hargs : args.all resOK = true) (h : applyBuiltin name args = some o) :
    boolOKb o = true := by
  unfold applyBuiltin at h
  repeat' split at h
  all_goals try cases h
  all_goals simp_all [resOK, boolOKb]
  · exact head?_boolOK _ _ (by assumption) (by assumption)
  · exact getLast?_boolOK _ _ (by assumption) (by assumption)
  · exact tail_boolOK _ (by assumption)
  · rw [boolOKbList_append]
    simp_all [boolOKbList]

theorem evalIdentifier_resOK (st : EvalState) (envId : Nat) (name : String)
    (hst : storeOK st = true) : resOK (evalIdentifier st envId name) = true := by
  unfold evalIdentifier
  cases hg : envGet st envId name with
  | some val => exact envGet_resOK _ _ _ _ hst hg
  | none =>
    unfold builtinsLookup
    split_ifs <;> rfl

theorem unwrap_resOK (r : Res) (h : resOK r = true) :
    resOK (unwrapReturnValue r) = true := by
  unfold unwrapReturnValue
  split
  · rename_i v
    cases v <;> simp_all [resOK, boolOKb]
  · exact h

theorem headD_resOK (args : List Res) (h : args.all resOK = true) :
    resOK (args.headD none) = true := by
  cases args <;> simp_all [resOK]

theorem returnValue_resOK (v : Res) (h : resOK v = true) :
    resOK (some (.returnValue v)) = true := by
  cases v <;> simp_all [resOK, boolOKb]

theorem resOK_of_returnValue (v : Res)
    (h : resOK (some (.returnValue v)) = true) : resOK v = true := by
  cases v <;> simp_all [resOK, boolOKb]

/-- The boolean-singleton invariant of the whole evaluator: from a store
whose values contain only singleton booleans, every evaluator function
yields a result containing only singleton booleans and preserves the store
invariant. -/
theorem evalAll_boolOK (fuel : Nat) :
    (∀ node envId st r st', storeOK st = true →
      evalFuel fuel node envId st = some (r, st') →
      resOK r = true ∧ storeOK st' = true)
    ∧ (∀ stmts envId st r st', storeOK st = true →
      evalProgramFuel fuel stmts envId st = some (r, st') →
      resOK r = true ∧ storeOK st' = true)
    ∧ (∀ stmts envId st r st', storeOK st = true →
      evalBlockFuel fuel stmts envId st = some (r, st') →
      resOK r = true ∧ storeOK st' = true)
    ∧ (∀ cond cons alt envId st r st', storeOK st = true →
      evalIfFuel fuel cond cons alt envId st = some (r, st') →
      resOK r = true ∧ storeOK st' = true)
    ∧ (∀ exps envId st rs st', storeOK st = true →
      evalExpressionsFuel fuel exps envId st = some (rs, st') →
      rs.all resOK = true ∧ storeOK st' = true)
    ∧ (∀ fn args st r st', storeOK st = true → args.all resOK = true →
      applyFunctionFuel fuel fn args st = some (r, st') →
      resOK r = true ∧ storeOK st' = true) := by
  induction fuel with
  | zero =>
    refine ⟨?_, ?_, ?_, ?_, ?_, ?_⟩ <;> intros <;> rename_i h <;> exact absurd h (by simp [evalFuel, evalProgramFuel, evalBlockFuel, evalIfFuel, evalExpressionsFuel, applyFunctionFuel])
  | succ fuel ih =>
    obtain ⟨ihE, ihP, ihB, ihI, ihX, ihA⟩ := ih
    refine ⟨?_, ?_, ?_, ?_, ?_, ?_⟩
    · -- evalFuel
      intro node envId st r st' hst h
      rw [evalFuel.eq_def] at h
      try dsimp only at h
      match node with
      | .prog stmts => exact ihP _ _ _ _ _ hst h
      | .stmt (.exprS e) => exact ihE _ _ _ _ _ hst h
      | .stmt (.blockS stmts) => exact ihB _ _ _ _ _ hst h
      | .stmt (.letS name value) =>
        try dsimp only at h
        cases hev : evalFuel fuel (.expr value) envId st with
        | none => rw [hev] at h; cases h
        | some p =>
          obtain ⟨val, st1⟩ := p
          rw [hev] at h
          try dsimp only at h
          obtain ⟨hval, hst1⟩ := ihE _ _ _ _ _ hst hev
          by_cases hie : isError val = true
          · rw [if_pos hie] at h
            cases h
            exact ⟨hval, hst1⟩
          · rw [if_neg hie] at h
            cases h
            exact ⟨rfl, envSet_storeOK _ _ _ _ hst1 hval⟩
      | .stmt (.returnS e) =>
        try dsimp only at h
        cases hev : evalFuel fuel (.expr e) envId st with
        | none => rw [hev] at h; cases h
        | some p =>
          obtain ⟨val, st1⟩ := p
          rw [hev] at h
          try dsimp only at h
          obtain ⟨hval, hst1⟩ := ihE _ _ _ _ _ hst hev
          by_cases hie : isError val = true
          · rw [if_pos hie] at h
            cases h
            exact ⟨hval, hst1⟩
          · rw [if_neg hie] at h
            cases h
            exact ⟨returnValue_resOK _ hval, hst1⟩
      | .expr (.intLit v) => cases h; exact ⟨rfl, hst⟩
      | .expr (.boolLit b) =>
        cases h
        exact ⟨by simpa [resOK] using nativeBool_boolOK b, hst⟩
      | .expr (.strLit s) => cases h; exact ⟨rfl, hst⟩
      | .expr (.prefixE op rE) =>
        try dsimp only at h
        cases hev : evalFuel fuel (.expr rE) envId st with
        | none => rw [hev] at h; cases h
        | some p =>
          obtain ⟨right, st1⟩ := p
          rw [hev] at h
          try dsimp only at h
          obtain ⟨hright, hst1⟩ := ihE _ _ _ _ _ hst hev
          by_cases hie : isError right = true
          · rw [if_pos hie] at h
            cases h
            exact ⟨hright, hst1⟩
          · rw [if_neg hie] at h
            cases hpre : evalPrefixExpression op right with
            | none => rw [hpre] at h; cases h
            | some o =>
              rw [hpre] at h
              cases h
              exact ⟨by simpa [resOK] using evalPrefix_boolOK _ _ _ hpre, hst1⟩
      | .expr (.infixE op lE rE) =>
        try dsimp only at h
        cases hevl : evalFuel fuel (.expr lE) envId st with
        | none => rw [hevl] at h; cases h
        | some p =>
          obtain ⟨left, st1⟩ := p
          rw [hevl] at h
          try dsimp only at h
          obtain ⟨hleft, hst1⟩ := ihE _ _ _ _ _ hst hevl
          by_cases hie : isError left = true
          · rw [if_pos hie] at h
            cases h
            exact ⟨hleft, hst1⟩
          · rw [if_neg hie] at h
            cases hevr : evalFuel fuel (.expr rE) envId st1 with
            | none => rw [hevr] at h; cases h
            | some q =>
              obtain ⟨right, st2⟩ := q
              rw [hevr] at h
              try dsimp only at h
              obtain ⟨hright, hst2⟩ := ihE _ _ _ _ _ hst1 hevr
              by_cases hie2 : isError right = true
              · rw [if_pos hie2] at h
                cases h
                exact ⟨hright, hst2⟩
              · rw [if_neg hie2] at h
                cases hinf : evalInfixExpression op left right with
                | none => rw [hinf] at h; cases h
                | some o =>
                  rw [hinf] at h
                  cases h
                  exact ⟨by simpa [resOK] using evalInfix_boolOK _ _ _ _ hinf,
                    hst2⟩
      | .expr (.ifE cond cons alt) => exact ihI _ _ _ _ _ _ _ hst h
      | .expr (.ident name) =>
        cases h
        exact ⟨evalIdentifier_resOK _ _ _ hst, hst⟩
      | .expr (.funcLit params body) =>
        cases h
        exact ⟨rfl, hst⟩
      | .expr (.callE fnE argsE) =>
        try dsimp only at h
        cases hevf : evalFuel fuel (.expr fnE) envId st with
        | none => rw [hevf] at h; cases h
        | some p =>
          obtain ⟨function, st1⟩ := p
          rw [hevf] at h
          try dsimp only at h
          obtain ⟨hfn, hst1⟩ := ihE _ _ _ _ _ hst hevf
          by_cases hie : isError function = true
          · rw [if_pos hie] at h
            cases h
            exact ⟨hfn, hst1⟩
          · rw [if_neg hie] at h
            cases hargs : evalExpressionsFuel fuel argsE envId st1 with
            | none => rw [hargs] at h; cases h
            | some q =>
              obtain ⟨args, st2⟩ := q
              rw [hargs] at h
              try dsimp only at h
              obtain ⟨hargsOK, hst2⟩ := ihX _ _ _ _ _ hst1 hargs
              by_cases hone : (args.length == 1 && isError (args.headD none))
                  = true
              · rw [if_pos hone] at h
                cases h
                exact ⟨headD_resOK _ hargsOK, hst2⟩
              · rw [if_neg hone] at h
                exact ihA _ _ _ _ _ hst2 hargsOK h
      | .expr (.arrayLit elems) => cases h; exact ⟨rfl, hst⟩
      | .expr (.indexE l i) => cases h; exact ⟨rfl, hst⟩
    · -- evalProgramFuel
      intro stmts envId st r st' hst h
      rw [evalProgramFuel.eq_def] at h
      try dsimp only at h
      match stmts with
      | [] => cases h; exact ⟨rfl, hst⟩
      | s :: rest =>
        try dsimp only at h
        cases hev : evalFuel fuel (.stmt s) envId st with
        | none => rw [hev] at h; cases h
        | some p =>
          obtain ⟨result, st1⟩ := p
          rw [hev] at h
          try dsimp only at h
          obtain ⟨hres, hst1⟩ := ihE _ _ _ _ _ hst hev
          match result with
          | some (.returnValue v) =>
            cases h
            exact ⟨resOK_of_returnValue _ hres, hst1⟩
          | some (.error m) => cases h; exact ⟨rfl, hst1⟩
          | none =>
            match rest with
            | [] => cases h; exact ⟨hres, hst1⟩
            | s2 :: rest2 => exact ihP _ _ _ _ _ hst1 h
          | some (.integer v) =>
            match rest with
            | [] => cases h; exact ⟨hres, hst1⟩
            | s2 :: rest2 => exact ihP _ _ _ _ _ hst1 h
          | some (.boolean b i) =>
            match rest with
            | [] => cases h; exact ⟨hres, hst1⟩
            | s2 :: rest2 => exact ihP _ _ _ _ _ hst1 h
          | some (.str sv) =>
            match rest with
            | [] => cases h; exact ⟨hres, hst1⟩
            | s2 :: rest2 => exact ihP _ _ _ _ _ hst1 h
          | some .null =>
            match rest with
            | [] => cases h; exact ⟨hres, hst1⟩
            | s2 :: rest2 => exact ihP _ _ _ _ _ hst1 h
          | some (.func a b c d) =>
            match rest with
            | [] => cases h; exact ⟨hres, hst1⟩
            | s2 :: rest2 => exact ihP _ _ _ _ _ hst1 h
          | some (.builtin n) =>
            match rest with
            | [] => cases h; exact ⟨hres, hst1⟩
            | s2 :: rest2 => exact ihP _ _ _ _ _ hst1 h
          | some (.array el) =>
            match rest with
            | [] => cases h; exact ⟨hres, hst1⟩
            | s2 :: rest2 => exact ihP _ _ _ _ _ hst1 h
    · -- evalBlockFuel
      intro stmts envId st r st' hst h
      rw [evalBlockFuel.eq_def] at h
      try dsimp only at h
      match stmts with
      | [] => cases h; exact ⟨rfl, hst⟩
      | s :: rest =>
        try dsimp only at h
        cases hev : evalFuel fuel (.stmt s) envId st with
        | none => rw [hev] at h; cases h
        | some p =>
          obtain ⟨result, st1⟩ := p
          rw [hev] at h
          try dsimp only at h
          obtain ⟨hres, hst1⟩ := ihE _ _ _ _ _ hst hev
          match result with
          | some o =>
            try dsimp only at h
            split at h <;> (cases h; exact ⟨hres, hst1⟩)
          | none => exact ihB _ _ _ _ _ hst1 h
    · -- evalIfFuel
      intro cond cons alt envId st r st' hst h
      rw [evalIfFuel.eq_def] at h
      try dsimp only at h
      cases hev : evalFuel fuel (.expr cond) envId st with
      | none => rw [hev] at h; cases h
      | some p =>
        obtain ⟨condition, st1⟩ := p
        rw [hev] at h
        try dsimp only at h
        obtain ⟨hcond, hst1⟩ := ihE _ _ _ _ _ hst hev
        by_cases hie : isError condition = true
        · rw [if_pos hie] at h
          cases h
          exact ⟨hcond, hst1⟩
        · rw [if_neg hie] at h
          by_cases htr : isTruthy condition = true
          · rw [if_pos htr] at h
            exact ihE _ _ _ _ _ hst1 h
          · rw [if_neg htr] at h
            match alt with
            | some altStmts => exact ihE _ _ _ _ _ hst1 h
            | none => cases h; exact ⟨rfl, hst1⟩
    · -- evalExpressionsFuel
      intro exps envId st rs st' hst h
      rw [evalExpressionsFuel.eq_def] at h
      try dsimp only at h
      match exps with
      | [] => cases h; exact ⟨rfl, hst⟩
      | e :: rest =>
        try dsimp only at h
        cases hev : evalFuel fuel (.expr e) envId st with
        | none => rw [hev] at h; cases h
        | some p =>
          obtain ⟨evaluated, st1⟩ := p
          rw [hev] at h
          try dsimp only at h
          obtain ⟨heval, hst1⟩ := ihE _ _ _ _ _ hst hev
          by_cases hie : isError evaluated = true
          · rw [if_pos hie] at h
            cases h
            exact ⟨by simp [heval], hst1⟩
          · rw [if_neg hie] at h
            cases hrest : evalExpressionsFuel fuel rest envId st1 with
            | none => rw [hrest] at h; cases h
            | some q =>
              obtain ⟨results, st2⟩ := q
              rw [hrest] at h
              cases h
              obtain ⟨hresults, hst2⟩ := ihX _ _ _ _ _ hst1 hrest
              exact ⟨by simp [heval, hresults], hst2⟩
    · -- applyFunctionFuel
      intro fn args st r st' hst hargs h
      rw [applyFunctionFuel.eq_def] at h
      try dsimp only at h
      match fn with
      | none => cases h
      | some (.func params body fnEnv fnId) =>
        try dsimp only at h
        by_cases hlt : args.length < params.length
        · rw [if_pos hlt] at h
          cases h
        · rw [if_neg hlt] at h
          have hst2 : storeOK (bindParams (newEnclosedEnvironment st fnEnv).2
              (newEnclosedEnvironment st fnEnv).1 params args) = true :=
            bindParams_storeOK _ _ _ _ (newEnclosed_storeOK _ _ hst) hargs
          cases hev : evalFuel fuel (.stmt (.blockS body))
              (newEnclosedEnvironment st fnEnv).1
              (bindParams (newEnclosedEnvironment st fnEnv).2
                (newEnclosedEnvironment st fnEnv).1 params args) with
          | none => rw [hev] at h; cases h
          | some p =>
            obtain ⟨evaluated, st3⟩ := p
            rw [hev] at h
            cases h
            obtain ⟨heval, hst3⟩ := ihE _ _ _ _ _ hst2 hev
            exact ⟨unwrap_resOK _ heval, hst3⟩
      | some (.builtin bname) =>
        try dsimp only at h
        cases hb : applyBuiltin bname args with
        | none => rw [hb] at h; cases h
        | some o =>
          rw [hb] at h
          cases h
          exact ⟨by simpa [resOK] using applyBuiltin_boolOK _ _ _ hargs hb,
            hst⟩
      | some (.integer v) => cases h; exact ⟨rfl, hst⟩
      | some (.boolean b i) => cases h; exact ⟨rfl, hst⟩
      | some (.str sv) => cases h; exact ⟨rfl, hst⟩
      | some .null => cases h; exact ⟨rfl, hst⟩
      | some (.returnValue v) => cases h; exact ⟨rfl, hst⟩
      | some (.error m) => cases h; exact ⟨rfl, hst⟩
      | some (.array el) => cases h; exact ⟨rfl, hst⟩

/-- C10: starting from any store in which every binding holds only the two
shared boolean singletons, every boolean result the evaluator produces is
`TRUE` or `FALSE` (and every boolean stored back keeps the invariant); for
singleton booleans, Go pointer-identity comparison agrees exactly with
equality of the underlying bool values. -/
theorem c10_booleans_are_singletons :
    (∀ fuel node envId st r st', storeOK st = true →
      evalFuel fuel node envId st = some (r, st') →
      (∀ b i, r = some (.boolean b i) → r = some TRUE ∨ r = some FALSE)
      ∧ resOK r = true ∧ storeOK st' = true)
    ∧ (∀ b1 i1 b2 i2,
      boolOKb (.boolean b1 i1) = true → boolOKb (.boolean b2 i2) = true →
      (objIdentityEq (.boolean b1 i1) (.boolean b2 i2) = true ↔ b1 = b2)) := by
  constructor
  · intro fuel node envId st r st' hst h
    obtain ⟨hr, hst'⟩ := (evalAll_boolOK fuel).1 node envId st r st' hst h
    refine ⟨?_, hr, hst'⟩
    intro b i hbi
    subst hbi
    simp only [resOK] at hr
    cases b <;> rcases i with _ | _ | i <;> simp_all [boolOKb, TRUE, FALSE]
  · intro b1 i1 b2 i2 h1 h2
    cases b1 <;> rcases i1 with _ | _ | i1 <;> cases b2 <;>
      rcases i2 with _ | _ | i2 <;> simp_all [boolOKb, objIdentityEq]

theorem c10_booleans_are_singletons_witness :
    (Option.some TRUE = some TRUE ∨ some TRUE = some FALSE)
    ∧ (objIdentityEq (.boolean true 0) (.boolean false 1) = true
        ↔ true = false) := by
  constructor
  · exact (c10_booleans_are_singletons.1 3 (.expr (.boolLit true)) 0
      initialState (some TRUE) initialState rfl rfl).1 true 0 rfl
  · exact c10_booleans_are_singletons.2 true 0 false 1 rfl rfl

end Monkey
